import Mathlib

/-!
Verification of the pygzctfapi change-tracking and event-dispatch core

Shallow embedding of the repository's storage serialization layer
(`pygzctfapi/misc/storages.py`), notices tracker
(`pygzctfapi/misc/trackers.py` with `list_diff` from `utils.py`),
event router (`pygzctfapi/misc/routers.py`) and dispatcher polling loop
(`pygzctfapi/misc/dispatchers.py`), together with theorems settling the
specification claims about them.

Machine integers are modelled as `Nat`/`Int`; bytes are `Nat` values below
256; Python exceptions are modelled with `Except`; Python `dict`s are
modelled as insertion-ordered association lists.
-/

namespace Pygzctfapi

/-! ## Big-endian byte encoding

Helper encoding used by the msgpack wire format: `beBytes k n` is the
`k`-byte big-endian representation of `n` (low `8*k` bits), `beVal`
reads it back. -/

/-- The `k`-byte big-endian encoding of `n` (keeps only the low `8*k` bits). -/
def beBytes : Nat → Nat → List Nat
  | 0, _ => []
  | k + 1, n => (n / 256 ^ k % 256) :: beBytes k n

/-- Big-endian value of a byte list. -/
def beVal : List Nat → Nat
  | [] => 0
  | b :: bs => b * 256 ^ bs.length + beVal bs

@[simp] theorem length_beBytes (k n : Nat) : (beBytes k n).length = k := by
  induction k generalizing n with
  | zero => rfl
  | succ k ih => simp [beBytes, ih]

theorem beVal_beBytes (k n : Nat) : beVal (beBytes k n) = n % 256 ^ k := by
  induction k generalizing n with
  | zero => simp [beBytes, beVal, Nat.mod_one]
  | succ k ih =>
    have h256 : (0:Nat) < 256 := by norm_num
    calc beVal (beBytes (k + 1) n)
        = n / 256 ^ k % 256 * 256 ^ k + n % 256 ^ k := by
          simp [beBytes, beVal, ih]
      _ = n % 256 ^ (k + 1) := by
          rw [pow_succ, Nat.mod_mul]
          ring

theorem beVal_beBytes_of_lt {k n : Nat} (h : n < 256 ^ k) :
    beVal (beBytes k n) = n := by
  rw [beVal_beBytes, Nat.mod_eq_of_lt h]

theorem beBytes_bytes_lt (k n : Nat) : ∀ b ∈ beBytes k n, b < 256 := by
  induction k generalizing n with
  | zero => simp [beBytes]
  | succ k ih =>
    intro b hb
    simp only [beBytes, List.mem_cons] at hb
    rcases hb with rfl | hb
    · exact Nat.mod_lt _ (by norm_num)
    · exact ih n b hb

/-! ## msgpack value domain

The storage layer serializes Python values with the external `msgpack`
library (`msgpack.packb(data)` / `msgpack.unpackb(value,
strict_map_key=False)`).  The library is modelled from the msgpack wire
format specification.  A Python string is represented by its UTF-8 byte
sequence; a float by its IEEE-754 double bit pattern (Python float
equality on NaN payloads is outside this model); a `dict` by its
insertion-ordered key/value pair list (keys unique). -/

/-- A Python value of the storage-serializable type set
(`Union[Dict, List, str, int, bytes, float]` plus `bool`/`None`). -/
inductive MPVal where
  | nil : MPVal
  | bool (b : Bool) : MPVal
  | int (i : Int) : MPVal
  | float (bits : Nat) : MPVal
  | str (s : List Nat) : MPVal
  | bin (b : List Nat) : MPVal
  | arr (vs : List MPVal) : MPVal
  | map (kvs : List (MPVal × MPVal)) : MPVal

/-- msgpack encoding of a nonnegative integer (smallest unsigned form,
as chosen by `msgpack.packb`); `none` when the value exceeds `uint64`. -/
def packNat (n : Nat) : Option (List Nat) :=
  if n < 0x80 then some [n]
  else if n < 0x100 then some [0xcc, n]
  else if n < 0x10000 then some (0xcd :: beBytes 2 n)
  else if n < 0x100000000 then some (0xce :: beBytes 4 n)
  else if n < 0x10000000000000000 then some (0xcf :: beBytes 8 n)
  else none

/-- msgpack encoding of a negative integer (smallest signed form);
`none` below `int64` range. -/
def packNegInt (i : Int) : Option (List Nat) :=
  if -32 ≤ i then some [(i + 256).toNat]
  else if -128 ≤ i then some [0xd0, (i + 256).toNat]
  else if -32768 ≤ i then some (0xd1 :: beBytes 2 (i + 65536).toNat)
  else if -(2 ^ 31) ≤ i then some (0xd2 :: beBytes 4 (i + 2 ^ 32).toNat)
  else if -(2 ^ 63) ≤ i then some (0xd3 :: beBytes 8 (i + 2 ^ 64).toNat)
  else none

/-- msgpack header for a str payload of the given byte length. -/
def strHeader (len : Nat) : Option (List Nat) :=
  if len < 32 then some [0xa0 + len]
  else if len < 0x100 then some [0xd9, len]
  else if len < 0x10000 then some (0xda :: beBytes 2 len)
  else if len < 0x100000000 then some (0xdb :: beBytes 4 len)
  else none

/-- msgpack header for a bin payload of the given byte length. -/
def binHeader (len : Nat) : Option (List Nat) :=
  if len < 0x100 then some [0xc4, len]
  else if len < 0x10000 then some (0xc5 :: beBytes 2 len)
  else if len < 0x100000000 then some (0xc6 :: beBytes 4 len)
  else none

/-- msgpack header for an array of the given element count. -/
def arrHeader (len : Nat) : Option (List Nat) :=
  if len < 16 then some [0x90 + len]
  else if len < 0x10000 then some (0xdc :: beBytes 2 len)
  else if len < 0x100000000 then some (0xdd :: beBytes 4 len)
  else none

/-- msgpack header for a map of the given pair count. -/
def mapHeader (len : Nat) : Option (List Nat) :=
  if len < 16 then some [0x80 + len]
  else if len < 0x10000 then some (0xde :: beBytes 2 len)
  else if len < 0x100000000 then some (0xdf :: beBytes 4 len)
  else none

mutual

/-- The `msgpack.packb`: serialize one value to bytes; `none` models the
library raising (value out of representable range). -/
def packb : MPVal → Option (List Nat)
  | .nil => some [0xc0]
  | .bool false => some [0xc2]
  | .bool true => some [0xc3]
  | .int i => if 0 ≤ i then packNat i.toNat else packNegInt i
  | .float bits => if bits < 2 ^ 64 then some (0xcb :: beBytes 8 bits) else none
  | .str s =>
    match strHeader s.length with
    | some h => some (h ++ s)
    | none => none
  | .bin b =>
    match binHeader b.length with
    | some h => some (h ++ b)
    | none => none
  | .arr vs =>
    match arrHeader vs.length, packList vs with
    | some h, some body => some (h ++ body)
    | _, _ => none
  | .map kvs =>
    match mapHeader kvs.length, packPairs kvs with
    | some h, some body => some (h ++ body)
    | _, _ => none

/-- Concatenated encodings of a list of values. -/
def packList : List MPVal → Option (List Nat)
  | [] => some []
  | v :: vs =>
    match packb v, packList vs with
    | some a, some b => some (a ++ b)
    | _, _ => none

/-- Concatenated encodings of a list of key/value pairs. -/
def packPairs : List (MPVal × MPVal) → Option (List Nat)
  | [] => some []
  | (k, v) :: kvs =>
    match packb k, packb v, packPairs kvs with
    | some a, some b, some c => some (a ++ b ++ c)
    | _, _, _ => none

end

/-- Read exactly `n` bytes from the stream. -/
def readN (n : Nat) (bs : List Nat) : Option (List Nat × List Nat) :=
  if n ≤ bs.length then some (bs.take n, bs.drop n) else none

/-- Decode a signed two's-complement value of `k` bytes. -/
def sExtend (k n : Nat) : Int :=
  if n < 256 ^ k / 2 then (n : Int) else (n : Int) - 256 ^ k

/-- A lexical token of the msgpack stream: either a complete value or
the opening of an array/map of the given element count. -/
inductive Tok where
  | val (v : MPVal) : Tok
  | arrTok (n : Nat) : Tok
  | mapTok (n : Nat) : Tok

/-- Read a `k`-byte big-endian length/number field. -/
def readLen (k : Nat) (bs : List Nat) : Option (Nat × List Nat) :=
  match readN k bs with
  | some (lb, rest) => some (beVal lb, rest)
  | none => none

/-- Read a str payload of `len` bytes. -/
def readStr (len : Nat) (bs : List Nat) : Option (Tok × List Nat) :=
  match readN len bs with
  | some (s, rest) => some (.val (.str s), rest)
  | none => none

/-- Read a bin payload of `len` bytes. -/
def readBin (len : Nat) (bs : List Nat) : Option (Tok × List Nat) :=
  match readN len bs with
  | some (p, rest) => some (.val (.bin p), rest)
  | none => none

/-- Read a `k`-byte length field followed by a str payload. -/
def readStrL (k : Nat) (bs : List Nat) : Option (Tok × List Nat) :=
  match readLen k bs with
  | some (len, rest) => readStr len rest
  | none => none

/-- Read a `k`-byte length field followed by a bin payload. -/
def readBinL (k : Nat) (bs : List Nat) : Option (Tok × List Nat) :=
  match readLen k bs with
  | some (len, rest) => readBin len rest
  | none => none

/-- Read a `k`-byte unsigned integer. -/
def readUint (k : Nat) (bs : List Nat) : Option (Tok × List Nat) :=
  match readLen k bs with
  | some (n, rest) => some (.val (.int n), rest)
  | none => none

/-- Read a `k`-byte signed (two's-complement) integer. -/
def readSint (k : Nat) (bs : List Nat) : Option (Tok × List Nat) :=
  match readLen k bs with
  | some (n, rest) => some (.val (.int (sExtend k n)), rest)
  | none => none

/-- Read an 8-byte IEEE-754 double (kept as its bit pattern). -/
def readFloat8 (bs : List Nat) : Option (Tok × List Nat) :=
  match readN 8 bs with
  | some (fb, rest) => some (.val (.float (beVal fb)), rest)
  | none => none

/-- Read a `k`-byte element count for an array. -/
def readArrL (k : Nat) (bs : List Nat) : Option (Tok × List Nat) :=
  match readLen k bs with
  | some (n, rest) => some (.arrTok n, rest)
  | none => none

/-- Read a `k`-byte pair count for a map. -/
def readMapL (k : Nat) (bs : List Nat) : Option (Tok × List Nat) :=
  match readLen k bs with
  | some (n, rest) => some (.mapTok n, rest)
  | none => none

/-- Tokenize the head of an msgpack stream.  Byte tags follow the
msgpack format specification; tags the storage layer can never produce
from Python values (ext family, reserved 0xc1) are rejected. -/
def parseHead : List Nat → Option (Tok × List Nat)
  | [] => none
  | b :: bs =>
    if b < 0x80 then some (.val (.int b), bs)
    else if b < 0x90 then some (.mapTok (b - 0x80), bs)
    else if b < 0xa0 then some (.arrTok (b - 0x90), bs)
    else if b < 0xc0 then readStr (b - 0xa0) bs
    else if b = 0xc0 then some (.val .nil, bs)
    else if b = 0xc2 then some (.val (.bool false), bs)
    else if b = 0xc3 then some (.val (.bool true), bs)
    else if b = 0xc4 then readBinL 1 bs
    else if b = 0xc5 then readBinL 2 bs
    else if b = 0xc6 then readBinL 4 bs
    else if b = 0xcb then readFloat8 bs
    else if b = 0xcc then readUint 1 bs
    else if b = 0xcd then readUint 2 bs
    else if b = 0xce then readUint 4 bs
    else if b = 0xcf then readUint 8 bs
    else if b = 0xd0 then readSint 1 bs
    else if b = 0xd1 then readSint 2 bs
    else if b = 0xd2 then readSint 4 bs
    else if b = 0xd3 then readSint 8 bs
    else if b = 0xd9 then readStrL 1 bs
    else if b = 0xda then readStrL 2 bs
    else if b = 0xdb then readStrL 4 bs
    else if b = 0xdc then readArrL 2 bs
    else if b = 0xdd then readArrL 4 bs
    else if b = 0xde then readMapL 2 bs
    else if b = 0xdf then readMapL 4 bs
    else if 0xe0 <= b then some (.val (.int ((b : Int) - 256)), bs)
    else none

mutual

/-- One step of `msgpack.unpackb`: parse a single value off the front of
the byte stream, returning it with the unconsumed tail.  `fuel` bounds
the nesting depth actually consumed; parsing fails when it runs out
(sufficient fuel is supplied by `unpackb`). -/
def parseVal : Nat → List Nat → Option (MPVal × List Nat)
  | 0, _ => none
  | f + 1, bs =>
    match parseHead bs with
    | some (.val v, rest) => some (v, rest)
    | some (.arrTok n, rest) =>
      match parseArr f n rest with
      | some (vs, rest) => some (.arr vs, rest)
      | none => none
    | some (.mapTok n, rest) =>
      match parseMap f n rest with
      | some (kvs, rest) => some (.map kvs, rest)
      | none => none
    | none => none
termination_by f bs => (f, 0)

/-- Parse `n` consecutive values (an array body). -/
def parseArr : Nat → Nat → List Nat → Option (List MPVal × List Nat)
  | _, 0, bs => some ([], bs)
  | f, n + 1, bs =>
    match parseVal f bs with
    | some (v, bs) =>
      match parseArr f n bs with
      | some (vs, rest) => some (v :: vs, rest)
      | none => none
    | none => none
termination_by f n bs => (f, n + 1)

/-- Parse `n` consecutive key/value pairs (a map body). -/
def parseMap : Nat → Nat → List Nat → Option (List (MPVal × MPVal) × List Nat)
  | _, 0, bs => some ([], bs)
  | f, n + 1, bs =>
    match parseVal f bs with
    | some (k, bs) =>
      match parseVal f bs with
      | some (v, bs) =>
        match parseMap f n bs with
        | some (kvs, rest) => some ((k, v) :: kvs, rest)
        | none => none
      | none => none
    | none => none
termination_by f n bs => (f, n + 1)

end

/-- The `msgpack.unpackb(value, strict_map_key=False)`: parse a full byte
string; fails (the library raises) on malformed input or trailing
bytes.  The fuel `bs.length + 1` dominates any nesting depth a stream
of that length can encode. -/
def unpackb (bs : List Nat) : Option MPVal :=
  match parseVal (bs.length + 1) bs with
  | some (v, []) => some v
  | _ => none

/-! ## Round-trip of the msgpack model -/

theorem readN_append (xs rest : List Nat) :
    readN xs.length (xs ++ rest) = some (xs, rest) := by
  simp [readN, List.take_left, List.drop_left]

theorem readN_append_of_eq {n : Nat} (xs rest : List Nat) (h : xs.length = n) :
    readN n (xs ++ rest) = some (xs, rest) := by
  subst h; exact readN_append xs rest

mutual

/-- Nesting size of a value: a fuel bound for `parseVal`. -/
def mSize : MPVal → Nat
  | .arr vs => lSize vs + 1
  | .map kvs => pSize kvs + 1
  | _ => 1

/-- Summed nesting size of an array body. -/
def lSize : List MPVal → Nat
  | [] => 0
  | v :: vs => mSize v + lSize vs

/-- Summed nesting size of a map body. -/
def pSize : List (MPVal × MPVal) → Nat
  | [] => 0
  | (k, v) :: kvs => mSize k + mSize v + pSize kvs

end

theorem one_le_mSize (v : MPVal) : 1 ≤ mSize v := by
  cases v <;> simp [mSize]

theorem beVal_singleton (n : Nat) : beVal [n] = n := by
  simp [beVal]

theorem readN_cons (b : Nat) (bs : List Nat) : readN 1 (b :: bs) = some ([b], bs) := by
  simp [readN]

theorem readLen_beBytes {k n : Nat} (h : n < 256 ^ k) (rest : List Nat) :
    readLen k (beBytes k n ++ rest) = some (n, rest) := by
  rw [readLen, readN_append_of_eq _ _ (length_beBytes k n)]
  dsimp only
  rw [beVal_beBytes_of_lt h]

theorem parseVal_head_val {bs rest : List Nat} {v : MPVal} (f : Nat)
    (h : parseHead bs = some (.val v, rest)) :
    parseVal (f + 1) bs = some (v, rest) := by
  rw [parseVal, h]

theorem parseVal_head_arr {bs rest tail : List Nat} {n : Nat} {vs : List MPVal} (f : Nat)
    (h : parseHead bs = some (.arrTok n, rest))
    (h2 : parseArr f n rest = some (vs, tail)) :
    parseVal (f + 1) bs = some (.arr vs, tail) := by
  rw [parseVal, h]
  dsimp only
  rw [h2]

theorem parseVal_head_map {bs rest tail : List Nat} {n : Nat}
    {kvs : List (MPVal × MPVal)} (f : Nat)
    (h : parseHead bs = some (.mapTok n, rest))
    (h2 : parseMap f n rest = some (kvs, tail)) :
    parseVal (f + 1) bs = some (.map kvs, tail) := by
  rw [parseVal, h]
  dsimp only
  rw [h2]

/-! ### Tokenizer dispatch lemmas (one per msgpack tag byte / range) -/

theorem parseHead_fixint {b : Nat} (bs : List Nat) (h : b < 0x80) :
    parseHead (b :: bs) = some (.val (.int b), bs) := by
  simp [parseHead, h]

theorem parseHead_fixmap {b : Nat} (bs : List Nat) (h1 : 0x80 ≤ b) (h2 : b < 0x90) :
    parseHead (b :: bs) = some (.mapTok (b - 0x80), bs) := by
  simp only [parseHead]
  rw [if_neg (by omega), if_pos (by omega)]

theorem parseHead_fixarr {b : Nat} (bs : List Nat) (h1 : 0x90 ≤ b) (h2 : b < 0xa0) :
    parseHead (b :: bs) = some (.arrTok (b - 0x90), bs) := by
  simp only [parseHead]
  rw [if_neg (by omega), if_neg (by omega), if_pos (by omega)]

theorem parseHead_fixstr {b : Nat} (bs : List Nat) (h1 : 0xa0 ≤ b) (h2 : b < 0xc0) :
    parseHead (b :: bs) = readStr (b - 0xa0) bs := by
  simp only [parseHead]
  rw [if_neg (by omega), if_neg (by omega), if_neg (by omega), if_pos (by omega)]

theorem parseHead_negfixint {b : Nat} (bs : List Nat) (h1 : 0xe0 ≤ b) :
    parseHead (b :: bs) = some (.val (.int ((b : Int) - 256)), bs) := by
  simp only [parseHead]
  repeat rw [if_neg (by omega)]
  rw [if_pos (by omega)]

theorem parseHead_c0 (bs : List Nat) : parseHead (0xc0 :: bs) = some (.val .nil, bs) := by
  norm_num [parseHead]

theorem parseHead_c2 (bs : List Nat) : parseHead (0xc2 :: bs) = some (.val (.bool false), bs) := by
  norm_num [parseHead]

theorem parseHead_c3 (bs : List Nat) : parseHead (0xc3 :: bs) = some (.val (.bool true), bs) := by
  norm_num [parseHead]

theorem parseHead_c4 (bs : List Nat) : parseHead (0xc4 :: bs) = readBinL 1 bs := by
  norm_num [parseHead]

theorem parseHead_c5 (bs : List Nat) : parseHead (0xc5 :: bs) = readBinL 2 bs := by
  norm_num [parseHead]

theorem parseHead_c6 (bs : List Nat) : parseHead (0xc6 :: bs) = readBinL 4 bs := by
  norm_num [parseHead]

theorem parseHead_cb (bs : List Nat) : parseHead (0xcb :: bs) = readFloat8 bs := by
  norm_num [parseHead]

theorem parseHead_cc (bs : List Nat) : parseHead (0xcc :: bs) = readUint 1 bs := by
  norm_num [parseHead]

theorem parseHead_cd (bs : List Nat) : parseHead (0xcd :: bs) = readUint 2 bs := by
  norm_num [parseHead]

theorem parseHead_ce (bs : List Nat) : parseHead (0xce :: bs) = readUint 4 bs := by
  norm_num [parseHead]

theorem parseHead_cf (bs : List Nat) : parseHead (0xcf :: bs) = readUint 8 bs := by
  norm_num [parseHead]

theorem parseHead_d0 (bs : List Nat) : parseHead (0xd0 :: bs) = readSint 1 bs := by
  norm_num [parseHead]

theorem parseHead_d1 (bs : List Nat) : parseHead (0xd1 :: bs) = readSint 2 bs := by
  norm_num [parseHead]

theorem parseHead_d2 (bs : List Nat) : parseHead (0xd2 :: bs) = readSint 4 bs := by
  norm_num [parseHead]

theorem parseHead_d3 (bs : List Nat) : parseHead (0xd3 :: bs) = readSint 8 bs := by
  norm_num [parseHead]

theorem parseHead_d9 (bs : List Nat) : parseHead (0xd9 :: bs) = readStrL 1 bs := by
  norm_num [parseHead]

theorem parseHead_da (bs : List Nat) : parseHead (0xda :: bs) = readStrL 2 bs := by
  norm_num [parseHead]

theorem parseHead_db (bs : List Nat) : parseHead (0xdb :: bs) = readStrL 4 bs := by
  norm_num [parseHead]

theorem parseHead_dc (bs : List Nat) : parseHead (0xdc :: bs) = readArrL 2 bs := by
  norm_num [parseHead]

theorem parseHead_dd (bs : List Nat) : parseHead (0xdd :: bs) = readArrL 4 bs := by
  norm_num [parseHead]

theorem parseHead_de (bs : List Nat) : parseHead (0xde :: bs) = readMapL 2 bs := by
  norm_num [parseHead]

theorem parseHead_df (bs : List Nat) : parseHead (0xdf :: bs) = readMapL 4 bs := by
  norm_num [parseHead]

/-! ### Field-reader lemmas -/

theorem readLen_cons (b : Nat) (bs : List Nat) : readLen 1 (b :: bs) = some (b, bs) := by
  rw [readLen, readN_cons]
  dsimp only
  rw [beVal_singleton]

theorem readStr_append (s rest : List Nat) :
    readStr s.length (s ++ rest) = some (.val (.str s), rest) := by
  rw [readStr, readN_append]

theorem readBin_append (p rest : List Nat) :
    readBin p.length (p ++ rest) = some (.val (.bin p), rest) := by
  rw [readBin, readN_append]

theorem readStrL_beBytes {k : Nat} (s rest : List Nat) (h : s.length < 256 ^ k) :
    readStrL k (beBytes k s.length ++ (s ++ rest)) = some (.val (.str s), rest) := by
  rw [readStrL, readLen_beBytes h]
  dsimp only
  exact readStr_append s rest

theorem readBinL_beBytes {k : Nat} (p rest : List Nat) (h : p.length < 256 ^ k) :
    readBinL k (beBytes k p.length ++ (p ++ rest)) = some (.val (.bin p), rest) := by
  rw [readBinL, readLen_beBytes h]
  dsimp only
  exact readBin_append p rest

theorem readStrL_cons (len : Nat) (s rest : List Nat) (h : s.length = len) :
    readStrL 1 (len :: (s ++ rest)) = some (.val (.str s), rest) := by
  rw [readStrL, readLen_cons]
  dsimp only
  rw [← h, readStr_append]

theorem readBinL_cons (len : Nat) (p rest : List Nat) (h : p.length = len) :
    readBinL 1 (len :: (p ++ rest)) = some (.val (.bin p), rest) := by
  rw [readBinL, readLen_cons]
  dsimp only
  rw [← h, readBin_append]

theorem readUint_beBytes {k n : Nat} (rest : List Nat) (h : n < 256 ^ k) :
    readUint k (beBytes k n ++ rest) = some (.val (.int n), rest) := by
  rw [readUint, readLen_beBytes h]

theorem readUint_cons (n : Nat) (rest : List Nat) :
    readUint 1 (n :: rest) = some (.val (.int n), rest) := by
  rw [readUint, readLen_cons]

theorem readSint_beBytes {k n : Nat} (rest : List Nat) (h : n < 256 ^ k) :
    readSint k (beBytes k n ++ rest) = some (.val (.int (sExtend k n)), rest) := by
  rw [readSint, readLen_beBytes h]

theorem readSint_cons (n : Nat) (rest : List Nat) :
    readSint 1 (n :: rest) = some (.val (.int (sExtend 1 n)), rest) := by
  rw [readSint, readLen_cons]

theorem readFloat8_beBytes {bits : Nat} (rest : List Nat) (h : bits < 256 ^ 8) :
    readFloat8 (beBytes 8 bits ++ rest) = some (.val (.float bits), rest) := by
  rw [readFloat8, readN_append_of_eq _ _ (length_beBytes 8 bits)]
  dsimp only
  rw [beVal_beBytes_of_lt h]

theorem readArrL_beBytes {k n : Nat} (rest : List Nat) (h : n < 256 ^ k) :
    readArrL k (beBytes k n ++ rest) = some (.arrTok n, rest) := by
  rw [readArrL, readLen_beBytes h]

theorem readMapL_beBytes {k n : Nat} (rest : List Nat) (h : n < 256 ^ k) :
    readMapL k (beBytes k n ++ rest) = some (.mapTok n, rest) := by
  rw [readMapL, readLen_beBytes h]

/-! ### Encoder/tokenizer agreement -/

theorem sExtend_neg (k : Nat) (P i : Int) (hP : ((256 ^ k : Nat) : Int) = P)
    (hlo : 2 * (-i) ≤ P) (hhi : i < 0) :
    sExtend k (i + P).toNat = i := by
  unfold sExtend
  have hcast : ((256 : Int) ^ k) = ((256 ^ k : Nat) : Int) := by push_cast; ring
  rw [hcast]
  generalize hQ : (256 : Nat) ^ k = Q at hP ⊢
  rw [hP, if_neg (by omega)]
  omega

theorem parseHead_packNat {n : Nat} {bs : List Nat} (rest : List Nat)
    (hp : packNat n = some bs) :
    parseHead (bs ++ rest) = some (.val (.int n), rest) := by
  unfold packNat at hp
  split_ifs at hp with h1 h2 h3 h4 h5
  all_goals injection hp with h
  all_goals subst h
  · simp only [List.cons_append, List.nil_append]
    exact parseHead_fixint rest h1
  · simp only [List.cons_append, List.nil_append]
    rw [parseHead_cc, readUint_cons]
  · simp only [List.cons_append]
    rw [parseHead_cd, readUint_beBytes rest (by norm_num; omega)]
  · simp only [List.cons_append]
    rw [parseHead_ce, readUint_beBytes rest (by norm_num; omega)]
  · simp only [List.cons_append]
    rw [parseHead_cf, readUint_beBytes rest (by norm_num; omega)]

theorem parseHead_packNegInt {i : Int} {bs : List Nat} (rest : List Nat)
    (hneg : i < 0) (hp : packNegInt i = some bs) :
    parseHead (bs ++ rest) = some (.val (.int i), rest) := by
  unfold packNegInt at hp
  split_ifs at hp with h1 h2 h3 h4 h5
  all_goals injection hp with h
  all_goals subst h
  · have hval : ((i + 256).toNat : Int) - 256 = i := by omega
    simp only [List.cons_append, List.nil_append]
    rw [parseHead_negfixint rest (by omega), hval]
  · have hsx : sExtend 1 (i + 256).toNat = i :=
      sExtend_neg 1 256 i (by norm_num) (by omega) hneg
    simp only [List.cons_append, List.nil_append]
    rw [parseHead_d0, readSint_cons, hsx]
  · have hsx : sExtend 2 (i + 65536).toNat = i :=
      sExtend_neg 2 65536 i (by norm_num) (by omega) hneg
    simp only [List.cons_append]
    rw [parseHead_d1, readSint_beBytes rest (by norm_num; omega), hsx]
  · have hsx : sExtend 4 (i + 2 ^ 32).toNat = i :=
      sExtend_neg 4 (2 ^ 32) i (by norm_num) (by omega) hneg
    simp only [List.cons_append]
    rw [parseHead_d2, readSint_beBytes rest (by norm_num; omega), hsx]
  · have hsx : sExtend 8 (i + 2 ^ 64).toNat = i :=
      sExtend_neg 8 (2 ^ 64) i (by norm_num) (by omega) hneg
    simp only [List.cons_append]
    rw [parseHead_d3, readSint_beBytes rest (by norm_num; omega), hsx]

theorem parseHead_packStr {s h : List Nat} (rest : List Nat)
    (hp : strHeader s.length = some h) :
    parseHead (h ++ s ++ rest) = some (.val (.str s), rest) := by
  unfold strHeader at hp
  split_ifs at hp with h1 h2 h3 h4
  all_goals injection hp with h
  all_goals subst h
  · simp only [List.cons_append, List.nil_append, List.append_assoc]
    rw [parseHead_fixstr _ (by omega) (by omega)]
    have hlen : 0xa0 + s.length - 0xa0 = s.length := by omega
    rw [hlen, readStr_append]
  · simp only [List.cons_append, List.nil_append, List.append_assoc]
    rw [parseHead_d9, readStrL_cons _ _ _ rfl]
  · simp only [List.cons_append, List.append_assoc]
    rw [parseHead_da, readStrL_beBytes _ _ (by norm_num; omega)]
  · simp only [List.cons_append, List.append_assoc]
    rw [parseHead_db, readStrL_beBytes _ _ (by norm_num; omega)]

theorem parseHead_packBin {p h : List Nat} (rest : List Nat)
    (hp : binHeader p.length = some h) :
    parseHead (h ++ p ++ rest) = some (.val (.bin p), rest) := by
  unfold binHeader at hp
  split_ifs at hp with h1 h2 h3
  all_goals injection hp with h
  all_goals subst h
  · simp only [List.cons_append, List.nil_append, List.append_assoc]
    rw [parseHead_c4, readBinL_cons _ _ _ rfl]
  · simp only [List.cons_append, List.append_assoc]
    rw [parseHead_c5, readBinL_beBytes _ _ (by norm_num; omega)]
  · simp only [List.cons_append, List.append_assoc]
    rw [parseHead_c6, readBinL_beBytes _ _ (by norm_num; omega)]

theorem parseHead_packArr {n : Nat} {h : List Nat} (rest : List Nat)
    (hp : arrHeader n = some h) :
    parseHead (h ++ rest) = some (.arrTok n, rest) := by
  unfold arrHeader at hp
  split_ifs at hp with h1 h2 h3
  all_goals injection hp with h
  all_goals subst h
  · have hlen : 0x90 + n - 0x90 = n := by omega
    simp only [List.cons_append, List.nil_append]
    rw [parseHead_fixarr _ (by omega) (by omega), hlen]
  · simp only [List.cons_append]
    rw [parseHead_dc, readArrL_beBytes rest (by norm_num; omega)]
  · simp only [List.cons_append]
    rw [parseHead_dd, readArrL_beBytes rest (by norm_num; omega)]

theorem parseHead_packMap {n : Nat} {h : List Nat} (rest : List Nat)
    (hp : mapHeader n = some h) :
    parseHead (h ++ rest) = some (.mapTok n, rest) := by
  unfold mapHeader at hp
  split_ifs at hp with h1 h2 h3
  all_goals injection hp with h
  all_goals subst h
  · have hlen : 0x80 + n - 0x80 = n := by omega
    simp only [List.cons_append, List.nil_append]
    rw [parseHead_fixmap _ (by omega) (by omega), hlen]
  · simp only [List.cons_append]
    rw [parseHead_de, readMapL_beBytes rest (by norm_num; omega)]
  · simp only [List.cons_append]
    rw [parseHead_df, readMapL_beBytes rest (by norm_num; omega)]

/-! ### The round-trip theorem -/

@[simp] theorem mSize_arr (vs : List MPVal) : mSize (.arr vs) = lSize vs + 1 := rfl

@[simp] theorem mSize_map (kvs : List (MPVal × MPVal)) :
    mSize (.map kvs) = pSize kvs + 1 := rfl

@[simp] theorem lSize_nil : lSize [] = 0 := rfl

@[simp] theorem lSize_cons (v : MPVal) (vs : List MPVal) :
    lSize (v :: vs) = mSize v + lSize vs := rfl

@[simp] theorem pSize_nil : pSize [] = 0 := rfl

@[simp] theorem pSize_cons (k v : MPVal) (kvs : List (MPVal × MPVal)) :
    pSize ((k, v) :: kvs) = mSize k + mSize v + pSize kvs := rfl

theorem parseVal_packb_fuel :
    ∀ f v bs rest, mSize v ≤ f → packb v = some bs →
      parseVal f (bs ++ rest) = some (v, rest) := by
  intro f
  induction f with
  | zero =>
    intro v bs rest hs _
    exact absurd hs (by have := one_le_mSize v; omega)
  | succ f ih =>
    have ihArr : ∀ vs body rest, lSize vs ≤ f → packList vs = some body →
        parseArr f vs.length (body ++ rest) = some (vs, rest) := by
      intro vs
      induction vs with
      | nil =>
        intro body rest _ hp
        injection hp with h
        subst h
        simp [parseArr]
      | cons v vs ihvs =>
        intro body rest hls hp
        simp only [lSize_cons] at hls
        rw [packList] at hp
        cases hv : packb v with
        | none => rw [hv] at hp; exact absurd hp (by simp)
        | some a =>
          cases hrest : packList vs with
          | none => rw [hv, hrest] at hp; exact absurd hp (by simp)
          | some b =>
            rw [hv, hrest] at hp
            dsimp only at hp
            injection hp with h
            subst h
            rw [List.length_cons, parseArr, List.append_assoc]
            rw [ih v a (b ++ rest) (by have := one_le_mSize v; omega) hv]
            dsimp only
            rw [ihvs b rest (by omega) hrest]
    have ihMap : ∀ kvs body rest, pSize kvs ≤ f → packPairs kvs = some body →
        parseMap f kvs.length (body ++ rest) = some (kvs, rest) := by
      intro kvs
      induction kvs with
      | nil =>
        intro body rest _ hp
        injection hp with h
        subst h
        simp [parseMap]
      | cons kv kvs ihkvs =>
        obtain ⟨k, v⟩ := kv
        intro body rest hls hp
        simp only [pSize_cons] at hls
        rw [packPairs] at hp
        cases hk : packb k with
        | none => rw [hk] at hp; exact absurd hp (by simp)
        | some a =>
          cases hv : packb v with
          | none => rw [hk, hv] at hp; exact absurd hp (by simp)
          | some b =>
            cases hrest : packPairs kvs with
            | none => rw [hk, hv, hrest] at hp; exact absurd hp (by simp)
            | some c =>
              rw [hk, hv, hrest] at hp
              dsimp only at hp
              injection hp with h
              subst h
              rw [List.length_cons, parseMap, List.append_assoc, List.append_assoc]
              rw [ih k a (b ++ (c ++ rest)) (by have := one_le_mSize k; omega) hk]
              dsimp only
              rw [ih v b (c ++ rest) (by have := one_le_mSize v; omega) hv]
              dsimp only
              rw [ihkvs c rest (by omega) hrest]
    intro v bs rest hs hp
    cases v with
    | nil =>
      rw [packb] at hp
      injection hp with h
      subst h
      exact parseVal_head_val f (parseHead_c0 rest)
    | bool b =>
      cases b with
      | false =>
        rw [packb] at hp
        injection hp with h
        subst h
        exact parseVal_head_val f (parseHead_c2 rest)
      | true =>
        rw [packb] at hp
        injection hp with h
        subst h
        exact parseVal_head_val f (parseHead_c3 rest)
    | int i =>
      rw [packb] at hp
      by_cases hi : 0 ≤ i
      · rw [if_pos hi] at hp
        have hph := parseHead_packNat rest hp
        rw [Int.toNat_of_nonneg hi] at hph
        exact parseVal_head_val f hph
      · rw [if_neg hi] at hp
        exact parseVal_head_val f (parseHead_packNegInt rest (by omega) hp)
    | float bits =>
      rw [packb] at hp
      split_ifs at hp with hb
      injection hp with h
      subst h
      have hb8 : bits < 256 ^ 8 := by norm_num at hb ⊢; omega
      rw [List.cons_append]
      exact parseVal_head_val f (by rw [parseHead_cb, readFloat8_beBytes rest hb8])
    | str s =>
      rw [packb] at hp
      cases hh : strHeader s.length with
      | none => rw [hh] at hp; exact absurd hp (by simp)
      | some hd =>
        rw [hh] at hp
        dsimp only at hp
        injection hp with h
        subst h
        rw [List.append_assoc]
        exact parseVal_head_val f (by rw [← List.append_assoc]; exact parseHead_packStr rest hh)
    | bin p =>
      rw [packb] at hp
      cases hh : binHeader p.length with
      | none => rw [hh] at hp; exact absurd hp (by simp)
      | some hd =>
        rw [hh] at hp
        dsimp only at hp
        injection hp with h
        subst h
        rw [List.append_assoc]
        exact parseVal_head_val f (by rw [← List.append_assoc]; exact parseHead_packBin rest hh)
    | arr vs =>
      rw [packb] at hp
      cases hh : arrHeader vs.length with
      | none => rw [hh] at hp; exact absurd hp (by simp)
      | some hd =>
        cases hbody : packList vs with
        | none => rw [hh, hbody] at hp; exact absurd hp (by simp)
        | some body =>
          rw [hh, hbody] at hp
          dsimp only at hp
          injection hp with h
          subst h
          simp only [mSize_arr] at hs
          rw [List.append_assoc]
          exact parseVal_head_arr f (parseHead_packArr (body ++ rest) hh)
            (ihArr vs body rest (by omega) hbody)
    | map kvs =>
      rw [packb] at hp
      cases hh : mapHeader kvs.length with
      | none => rw [hh] at hp; exact absurd hp (by simp)
      | some hd =>
        cases hbody : packPairs kvs with
        | none => rw [hh, hbody] at hp; exact absurd hp (by simp)
        | some body =>
          rw [hh, hbody] at hp
          dsimp only at hp
          injection hp with h
          subst h
          simp only [mSize_map] at hs
          rw [List.append_assoc]
          exact parseVal_head_map f (parseHead_packMap (body ++ rest) hh)
            (ihMap kvs body rest (by omega) hbody)

theorem packNat_length {n : Nat} {bs : List Nat} (hp : packNat n = some bs) :
    1 ≤ bs.length := by
  unfold packNat at hp
  split_ifs at hp <;> (injection hp with h; subst h; simp)

theorem packNegInt_length {i : Int} {bs : List Nat} (hp : packNegInt i = some bs) :
    1 ≤ bs.length := by
  unfold packNegInt at hp
  split_ifs at hp <;> (injection hp with h; subst h; simp)

theorem strHeader_length {n : Nat} {h : List Nat} (hp : strHeader n = some h) :
    1 ≤ h.length := by
  unfold strHeader at hp
  split_ifs at hp <;> (injection hp with h2; subst h2; simp)

theorem binHeader_length {n : Nat} {h : List Nat} (hp : binHeader n = some h) :
    1 ≤ h.length := by
  unfold binHeader at hp
  split_ifs at hp <;> (injection hp with h2; subst h2; simp)

theorem arrHeader_length {n : Nat} {h : List Nat} (hp : arrHeader n = some h) :
    1 ≤ h.length := by
  unfold arrHeader at hp
  split_ifs at hp <;> (injection hp with h2; subst h2; simp)

theorem mapHeader_length {n : Nat} {h : List Nat} (hp : mapHeader n = some h) :
    1 ≤ h.length := by
  unfold mapHeader at hp
  split_ifs at hp <;> (injection hp with h2; subst h2; simp)

/-- Every value occupies at least `mSize` bytes in its encoding, so the
fuel `bs.length + 1` used by `unpackb` always suffices. -/
theorem mSize_le_packb_length :
    ∀ N v bs, mSize v ≤ N → packb v = some bs → mSize v ≤ bs.length := by
  intro N
  induction N with
  | zero =>
    intro v bs hs _
    exact absurd hs (by have := one_le_mSize v; omega)
  | succ N ih =>
    have ihVal : ∀ v bs, mSize v ≤ N + 1 → packb v = some bs →
        mSize v ≤ bs.length := by
      intro v bs hs hp
      cases v with
      | nil =>
        rw [packb] at hp
        injection hp with h
        subst h
        simp [mSize]
      | bool b =>
        cases b <;> (rw [packb] at hp; injection hp with h; subst h; simp [mSize])
      | int i =>
        rw [packb] at hp
        have h1 : (1:Nat) ≤ bs.length := by
          by_cases hi : 0 ≤ i
          · rw [if_pos hi] at hp; exact packNat_length hp
          · rw [if_neg hi] at hp; exact packNegInt_length hp
        simpa [mSize] using h1
      | float bits =>
        rw [packb] at hp
        split_ifs at hp
        injection hp with h
        subst h
        simp [mSize]
      | str s =>
        rw [packb] at hp
        cases hh : strHeader s.length with
        | none => rw [hh] at hp; exact absurd hp (by simp)
        | some hd =>
          rw [hh] at hp
          dsimp only at hp
          injection hp with h
          subst h
          have := strHeader_length hh
          simp [mSize]
          omega
      | bin p =>
        rw [packb] at hp
        cases hh : binHeader p.length with
        | none => rw [hh] at hp; exact absurd hp (by simp)
        | some hd =>
          rw [hh] at hp
          dsimp only at hp
          injection hp with h
          subst h
          have := binHeader_length hh
          simp [mSize]
          omega
      | arr vs =>
        rw [packb] at hp
        cases hh : arrHeader vs.length with
        | none => rw [hh] at hp; exact absurd hp (by simp)
        | some hd =>
          cases hbody : packList vs with
          | none => rw [hh, hbody] at hp; exact absurd hp (by simp)
          | some body =>
            rw [hh, hbody] at hp
            dsimp only at hp
            injection hp with h
            subst h
            simp only [mSize_arr] at hs
            have hhd := arrHeader_length hh
            have hbl : lSize vs ≤ body.length := by
              clear hh hhd
              induction vs generalizing body with
              | nil =>
                injection hbody with h
                subst h
                simp
              | cons v vs ihvs =>
                rw [packList] at hbody
                cases hv : packb v with
                | none => rw [hv] at hbody; exact absurd hbody (by simp)
                | some a =>
                  cases hrest : packList vs with
                  | none => rw [hv, hrest] at hbody; exact absurd hbody (by simp)
                  | some b =>
                    rw [hv, hrest] at hbody
                    dsimp only at hbody
                    injection hbody with h
                    subst h
                    simp only [lSize_cons] at hs ⊢
                    have hva : mSize v ≤ a.length :=
                      ih v a (by have := one_le_mSize v; omega) hv
                    have hvb : lSize vs ≤ b.length := ihvs (by omega) b hrest
                    simp
                    omega
            simp only [mSize_arr, List.length_append]
            omega
      | map kvs =>
        rw [packb] at hp
        cases hh : mapHeader kvs.length with
        | none => rw [hh] at hp; exact absurd hp (by simp)
        | some hd =>
          cases hbody : packPairs kvs with
          | none => rw [hh, hbody] at hp; exact absurd hp (by simp)
          | some body =>
            rw [hh, hbody] at hp
            dsimp only at hp
            injection hp with h
            subst h
            simp only [mSize_map] at hs
            have hhd := mapHeader_length hh
            have hbl : pSize kvs ≤ body.length := by
              clear hh hhd
              induction kvs generalizing body with
              | nil =>
                injection hbody with h
                subst h
                simp
              | cons kv kvs ihkvs =>
                obtain ⟨k, v⟩ := kv
                rw [packPairs] at hbody
                cases hk : packb k with
                | none => rw [hk] at hbody; exact absurd hbody (by simp)
                | some a =>
                  cases hv : packb v with
                  | none => rw [hk, hv] at hbody; exact absurd hbody (by simp)
                  | some b =>
                    cases hrest : packPairs kvs with
                    | none => rw [hk, hv, hrest] at hbody; exact absurd hbody (by simp)
                    | some c =>
                      rw [hk, hv, hrest] at hbody
                      dsimp only at hbody
                      injection hbody with h
                      subst h
                      simp only [pSize_cons] at hs ⊢
                      have hka : mSize k ≤ a.length :=
                        ih k a (by have := one_le_mSize k; omega) hk
                      have hvb : mSize v ≤ b.length :=
                        ih v b (by have := one_le_mSize v; omega) hv
                      have hrc : pSize kvs ≤ c.length := ihkvs (by omega) c hrest
                      simp
                      omega
            simp only [mSize_map, List.length_append]
            omega
    exact ihVal

/-- Serialize-then-deserialize is the identity on every value msgpack
can represent (`msgpack.unpackb(msgpack.packb(v)) == v`). -/
theorem unpackb_packb {v : MPVal} {bs : List Nat} (hp : packb v = some bs) :
    unpackb bs = some v := by
  have hlen : mSize v ≤ bs.length := mSize_le_packb_length (mSize v) v bs le_rfl hp
  have hparse : parseVal (bs.length + 1) (bs ++ []) = some (v, []) :=
    parseVal_packb_fuel (bs.length + 1) v bs [] (by omega) hp
  rw [List.append_nil] at hparse
  rw [unpackb, hparse]

/-! ## Storage layer (`pygzctfapi/misc/storages.py`)

`ByteStorage` public methods serialize with msgpack and delegate to the
backend primitives `_get`/`_set`/`_unset`; exceptions raised inside the
`try` block are re-raised as `StorageOperationError(exception=e)`.
`prepare_key` and `prepare_data` run *before* the `try` block of
`set`/`get`/`unset`/`exists`. -/

/-- The Python exceptions the storage and tracker layers can raise. -/
inductive PyErr where
  /-- The `ValueError`, e.g. from `ByteStorage.prepare_data`. -/
  | valueError : PyErr
  /-- The `TypeError`, e.g. comparing an int with a non-int. -/
  | typeError : PyErr
  /-- The `AttributeError`, e.g. calling `.rstrip` on a non-string. -/
  | attributeError : PyErr
  /-- Failure raised by `msgpack.unpackb` on malformed bytes. -/
  | unpackError : PyErr
  /-- The `exceptions.StorageOperationError(exception=cause)` wrapping an
  underlying exception. -/
  | storageOperationError (cause : PyErr) : PyErr
  /-- The `exceptions.StorageOperationError("Storage is closed.")`, raised
  with `exception=None` (same Python class as `storageOperationError`,
  without an underlying cause). -/
  | storageClosedError : PyErr
deriving DecidableEq

instance {ε α : Type} [DecidableEq ε] [DecidableEq α] : DecidableEq (Except ε α) := fun a b =>
  match a, b with
  | .ok x, .ok y =>
    if h : x = y then isTrue (congrArg _ h) else isFalse (fun hh => h (Except.ok.inj hh))
  | .error x, .error y =>
    if h : x = y then isTrue (congrArg _ h) else isFalse (fun hh => h (Except.error.inj hh))
  | .ok _, .error _ => isFalse (fun hh => Except.noConfusion hh)
  | .error _, .ok _ => isFalse (fun hh => Except.noConfusion hh)

/-- Whether an exception is of the Python class
`exceptions.StorageOperationError`. -/
def PyErr.isStorageOp : PyErr → Bool
  | .storageOperationError _ => true
  | .storageClosedError => true
  | _ => false

/-- The `ByteStorage.prepare_data` (storages.py 156-173): serialize with
`msgpack.packb`; any serialization failure is re-raised as a plain
`ValueError`, not a `StorageOperationError`. -/
def prepare_data (v : MPVal) : Except PyErr (List Nat) :=
  match packb v with
  | some bs => .ok bs
  | none => .error .valueError

/-- The `ByteStorage.set` (storages.py 82-98) with the backend primitive
abstracted: `prim bs` is the outcome of `self._set(key, bs)`.
`prepare_data` runs before the `try` block, so its `ValueError`
propagates unwrapped; primitive failures are wrapped. -/
def byteSet {σ : Type} (v : MPVal) (prim : List Nat → Except PyErr σ) : Except PyErr σ :=
  match prepare_data v with
  | .error e => .error e
  | .ok bs =>
    match prim bs with
    | .ok r => .ok r
    | .error e => .error (.storageOperationError e)

/-- The `ByteStorage.get` (storages.py 47-67) with the backend primitive
abstracted: `prim` is the outcome of `self._get(key)`.  The `try` block
covers both the primitive and `msgpack.unpackb`, so every failure is
wrapped as `StorageOperationError`. -/
def byteGet (prim : Except PyErr (Option (List Nat))) : Except PyErr (Option MPVal) :=
  match prim with
  | .error e => .error (.storageOperationError e)
  | .ok none => .ok none
  | .ok (some bs) =>
    match unpackb bs with
    | some v => .ok (some v)
    | none => .error (.storageOperationError .unpackError)

/-- The `ByteStorage.unset` (storages.py 111-125) with the backend
primitive abstracted. -/
def byteUnset {σ : Type} (prim : Except PyErr σ) : Except PyErr σ :=
  match prim with
  | .ok r => .ok r
  | .error e => .error (.storageOperationError e)

/-- The `ByteStorage.exists` (storages.py 137-154) with the backend
primitive abstracted. -/
def byteExists (prim : Except PyErr (Option (List Nat))) : Except PyErr Bool :=
  match prim with
  | .error e => .error (.storageOperationError e)
  | .ok r => .ok r.isSome

/-- A byte-oriented backend store (the `SQLiteStorage` table
`storage(key TEXT PRIMARY KEY, value BLOB)`): keys to byte strings. -/
abbrev BStore := List (String × List Nat)

/-- The `SQLiteStorage._get`: `SELECT value FROM storage WHERE key = ?`. -/
def bstoreLookup (st : BStore) (k : String) : Option (List Nat) :=
  match st.find? (fun p => p.1 = k) with
  | some p => some p.2
  | none => none

/-- The `SQLiteStorage._set`: `REPLACE INTO storage (key, value)`. -/
def bstorePut (st : BStore) (k : String) (bs : List Nat) : BStore :=
  match st with
  | [] => [(k, bs)]
  | (k2, v2) :: rest =>
    if k2 = k then (k2, bs) :: rest else (k2, v2) :: bstorePut rest k bs

/-- The `SQLiteStorage.set` via the `ByteStorage` template method, on an
open connection (the REPLACE itself does not fail). -/
def sqliteSet (st : BStore) (k : String) (v : MPVal) : Except PyErr BStore :=
  byteSet v (fun bs => .ok (bstorePut st k bs))

/-- The `SQLiteStorage.get` via the `ByteStorage` template method, on an
open connection. -/
def sqliteGet (st : BStore) (k : String) : Except PyErr (Option MPVal) :=
  byteGet (.ok (bstoreLookup st k))

/-- The `storage.set(k, v)` followed by `storage.get(k)` on the byte
backend; a failure of `set` propagates (nothing is stored). -/
def sqliteSetThenGet (st : BStore) (k : String) (v : MPVal) : Except PyErr (Option MPVal) :=
  match sqliteSet st k v with
  | .ok st2 => sqliteGet st2 k
  | .error e => .error e

theorem bstoreLookup_bstorePut_self (st : BStore) (k : String) (bs : List Nat) :
    bstoreLookup (bstorePut st k bs) k = some bs := by
  induction st with
  | nil => simp [bstorePut, bstoreLookup]
  | cons p rest ih =>
    obtain ⟨k2, v2⟩ := p
    by_cases hk : k2 = k
    · subst hk
      simp [bstorePut, bstoreLookup]
    · simp only [bstorePut, if_neg hk]
      simpa [bstoreLookup, List.find?, hk] using ih

/-- The `InMemoryStorage` (storages.py 378-481): a dict guarded by a lock,
values are deep-copied on `set`; every operation on a closed storage
raises `StorageOperationError("Storage is closed.")` with no cause. -/
structure InMemoryStorage where
  entries : List (String × MPVal)
  isClosed : Bool

/-- Association-list lookup standing for `dict.get(key, None)`. -/
def memLookup (entries : List (String × MPVal)) (k : String) : Option MPVal :=
  match entries.find? (fun p => p.1 = k) with
  | some p => some p.2
  | none => none

/-- Association-list upsert standing for `dict[key] = value`. -/
def memPut (entries : List (String × MPVal)) (k : String) (v : MPVal) :
    List (String × MPVal) :=
  match entries with
  | [] => [(k, v)]
  | (k2, v2) :: rest =>
    if k2 = k then (k2, v) :: rest else (k2, v2) :: memPut rest k v

/-- The `InMemoryStorage.get` (storages.py 388-402). -/
def InMemoryStorage.get (st : InMemoryStorage) (k : String) : Except PyErr (Option MPVal) :=
  if st.isClosed then .error .storageClosedError
  else .ok (memLookup st.entries k)

/-- The `InMemoryStorage.set` (storages.py 404-416); `deepcopy` is the
identity on immutable model values. -/
def InMemoryStorage.set (st : InMemoryStorage) (k : String) (v : MPVal) :
    Except PyErr InMemoryStorage :=
  if st.isClosed then .error .storageClosedError
  else .ok ⟨memPut st.entries k v, st.isClosed⟩

/-- The `storage.set(k, v)` followed by `storage.get(k)` on the in-memory
backend. -/
def memSetThenGet (st : InMemoryStorage) (k : String) (v : MPVal) :
    Except PyErr (Option MPVal) :=
  match st.set k v with
  | .ok st2 => st2.get k
  | .error e => .error e

theorem memLookup_memPut_self (entries : List (String × MPVal)) (k : String) (v : MPVal) :
    memLookup (memPut entries k v) k = some v := by
  induction entries with
  | nil => simp [memPut, memLookup]
  | cons p rest ih =>
    obtain ⟨k2, v2⟩ := p
    by_cases hk : k2 = k
    · subst hk
      simp [memPut, memLookup]
    · simp only [memPut, if_neg hk]
      simpa [memLookup, List.find?, hk] using ih

/-! ## Notices tracker (`pygzctfapi/misc/trackers.py`)

`NoticesTracker` keeps two storage records per `(tracker_id, game.id)`
pair: the cursor record `...-LNID` and the snapshot record `...-NLIST`.
The external fetch `self._game.notices()` is a parameter of the model.
The tracker is modelled against the default `InMemoryStorage` backend
semantics (`get` returns the stored object, `set` overwrites; no
serialization), with the store restricted to the value shapes these two
records hold. -/

/-- A `datetime.datetime` value, represented by the ISO string it was
parsed from.  Modelled from the Python standard library:
`datetime.fromisoformat` is represented as the carrier of its (already
stripped) input string, and datetime equality as string equality —
adequate for the concrete timestamps used here. -/
structure Datetime where
  iso : String
deriving DecidableEq

/-- The `str.rstrip('Z')`: remove all trailing `'Z'` characters. -/
def rstripZ (s : String) : String :=
  String.mk ((s.data.reverse.dropWhile (fun c => c = 'Z')).reverse)

/-- The `datetime.fromisoformat` on an already-stripped string (see
`Datetime`). -/
def fromisoformat (s : String) : Datetime := ⟨s⟩

/-- The `time` entry of a stored notice dict: `Notice.from_dict` expects
an ISO string (the GZCTF wire format), while `dataclasses.asdict`
produces a `datetime` object. -/
inductive TimeVal where
  | timestr (s : String) : TimeVal
  | timeobj (t : Datetime) : TimeVal
deriving DecidableEq

/-- The `models.Notice` (models.py 160-191): a dataclass with derived
field-by-field equality. -/
structure Notice where
  id : Int
  time : Datetime
  type : String
  values : List String
deriving DecidableEq

/-- The dict `{'id': .., 'time': .., 'type': .., 'values': ..}` stored
in the snapshot record. -/
structure StoredNotice where
  id : Int
  time : TimeVal
  type : String
  values : List String
deriving DecidableEq

/-- The `Notice.from_dict` (models.py 167-175):
`datetime.fromisoformat(data['time'].rstrip('Z'))` — calling `.rstrip`
on a non-string (a `datetime` stored by `asdict`) raises
`AttributeError`. -/
def Notice.from_dict (d : StoredNotice) : Except PyErr Notice :=
  match d.time with
  | .timestr s => .ok ⟨d.id, fromisoformat (rstripZ s), d.type, d.values⟩
  | .timeobj _ => .error .attributeError

/-- The `dataclasses.asdict` on a `Notice`: the `time` field stays a
`datetime` object. -/
def asdictNotice (n : Notice) : StoredNotice :=
  ⟨n.id, .timeobj n.time, n.type, n.values⟩

/-- A value held by one of the tracker's two storage records. -/
inductive TrackVal where
  | vint (n : Int) : TrackVal
  | vlist (l : List StoredNotice) : TrackVal
deriving DecidableEq

/-- The tracker's view of its storage backend. -/
abbrev TrackStore := List (String × TrackVal)

/-- Storage read (`InMemoryStorage.get` semantics). -/
def tsGet (st : TrackStore) (k : String) : Option TrackVal :=
  match st.find? (fun p => p.1 = k) with
  | some p => some p.2
  | none => none

/-- Storage write (`InMemoryStorage.set` semantics). -/
def tsSet (st : TrackStore) (k : String) (v : TrackVal) : TrackStore :=
  match st with
  | [] => [(k, v)]
  | (k2, v2) :: rest =>
    if k2 = k then (k2, v) :: rest else (k2, v2) :: tsSet rest k v

/-- The `self._lnid_key = f'NoticesTracker{tracker_id}-Game{game.id}-LNID'`. -/
def lnidKey (tid gid : String) : String :=
  "NoticesTracker" ++ tid ++ "-Game" ++ gid ++ "-LNID"

/-- The `self._nlist_key = f'NoticesTracker{tracker_id}-Game{game.id}-NLIST'`. -/
def nlistKey (tid gid : String) : String :=
  "NoticesTracker" ++ tid ++ "-Game" ++ gid ++ "-NLIST"

theorem lnidKey_ne_nlistKey (tid gid : String) : lnidKey tid gid ≠ nlistKey tid gid := by
  intro h
  have hlen := congrArg String.length h
  rw [lnidKey, nlistKey] at hlen
  simp only [String.length_append] at hlen
  have h5 : "-LNID".length = 5 := by decide
  have h6 : "-NLIST".length = 6 := by decide
  omega

/-- The comparison `notice.id > lnid` performed inside the filter of
`get_new`, with `lnid` as the `last_nid` property reads it (`None`
becomes `0`); comparing with a stored non-integer raises `TypeError`. -/
def idGtLnid (lnid : Option TrackVal) (n : Notice) : Except PyErr Bool :=
  match lnid with
  | none => .ok (decide (0 < n.id))
  | some (.vint m) => .ok (decide (m < n.id))
  | some (.vlist _) => .error .typeError

/-- The `list(filter(lambda notice: notice.id > lnid, ...))`, first raise
wins. -/
def filterNew (lnid : Option TrackVal) : List Notice → Except PyErr (List Notice)
  | [] => .ok []
  | n :: ns =>
    match idGtLnid lnid n with
    | .error e => .error e
    | .ok true =>
      match filterNew lnid ns with
      | .ok r => .ok (n :: r)
      | .error e => .error e
    | .ok false => filterNew lnid ns

/-- Python slicing `xs[:limit]` for an `int` limit (negative limits cut
from the end). -/
def pyTake {α : Type} (l : Int) (xs : List α) : List α :=
  if 0 ≤ l then xs.take l.toNat else xs.take (xs.length - (-l).toNat)

/-- The `NoticesTracker.get_new` (trackers.py 74-92): filter the fetch by
`id > cursor`, truncate to `limit`, and advance the cursor to the id of
the *last* returned notice (fetch order, not a maximum).  Returns the
result (or the propagated exception) together with the storage state
after the call. -/
def getNew (tid gid : String) (fetch : List Notice) (limit : Option Int)
    (st : TrackStore) : Except PyErr (List Notice) × TrackStore :=
  match filterNew (tsGet st (lnidKey tid gid)) fetch with
  | .error e => (.error e, st)
  | .ok filtered =>
    let newNotices := match limit with
      | some l => pyTake l filtered
      | none => filtered
    match newNotices.getLast? with
    | some last => (.ok newNotices, tsSet st (lnidKey tid gid) (.vint last.id))
    | none => (.ok newNotices, st)

/-- The `NoticeUpdateTypes` namespace (misc/models.py 7-11). -/
inductive UpdateType where
  | new : UpdateType
  | edited : UpdateType
  | deleted : UpdateType
deriving DecidableEq

/-- The `misc.models.NoticeUpdate` (misc/models.py 14-34). -/
structure NoticeUpdate where
  update_type : UpdateType
  new_notice : Option Notice
  old_notice : Option Notice
deriving DecidableEq

/-- The `NoticeUpdate.id` (misc/models.py 56-64): the id of the new notice
for `new`/`edited`, of the old notice for `deleted`.  The fallthrough
`0` stands for the `AttributeError` Python would raise on an update
whose required notice is missing; the tracker never constructs one. -/
def NoticeUpdate.nid (u : NoticeUpdate) : Int :=
  match u.update_type, u.new_notice, u.old_notice with
  | .new, some n, _ => n.id
  | .edited, some n, _ => n.id
  | .deleted, _, some n => n.id
  | _, _, _ => 0

/-- Insert into a list sorted by `nid`, before the first strictly
greater element (the stable placement `list.sort` gives). -/
def insertByNid (u : NoticeUpdate) : List NoticeUpdate → List NoticeUpdate
  | [] => [u]
  | w :: ws =>
    if u.nid ≤ w.nid ∧ u.nid ≠ w.nid then u :: w :: ws
    else w :: insertByNid u ws

/-- The `updates.sort(key=lambda update: update.id)`: Python's stable sort.
(The batches sorted here always have pairwise distinct ids, so any
correct by-id sort produces the same list.) -/
def sortByNid : List NoticeUpdate → List NoticeUpdate
  | [] => []
  | u :: us => insertByNid u (sortByNid us)

/-- The `dict[key] = value` for the id-keyed notice dict. -/
def dictUpsert (d : List (Int × Notice)) (k : Int) (v : Notice) : List (Int × Notice) :=
  match d with
  | [] => [(k, v)]
  | (k2, v2) :: rest =>
    if k2 = k then (k2, v) :: rest else (k2, v2) :: dictUpsert rest k v

/-- The dict comprehension `{notice.id: notice for notice in ...}`:
insertion-ordered, later duplicate ids overwrite in place. -/
def dictOf (ns : List Notice) : List (Int × Notice) :=
  ns.foldl (fun d n => dictUpsert d n.id n) []

/-- The `.keys()` of the id-keyed dict, in insertion order. -/
def dictKeys (d : List (Int × Notice)) : List Int := d.map Prod.fst

/-- The `d[k]` / membership lookup. -/
def dLookup (d : List (Int × Notice)) (k : Int) : Option Notice :=
  match d.find? (fun p => p.1 = k) with
  | some p => some p.2
  | none => none

/-- The `utils.ListDiff` (utils.py 7-13). -/
structure ListDiff where
  list1 : List Int
  list2 : List Int
  common : List Int
  unique1 : List Int
  unique2 : List Int

/-- The `utils.list_diff` (utils.py 61-69): set intersection and the two
set differences.  Python materializes `set(list1)`/`set(list2)` whose
iteration order is unspecified; the model fixes first-occurrence order.
The tracker only consumes these through a by-id sort over pairwise
distinct ids, where the order is immaterial. -/
def list_diff (l1 l2 : List Int) : ListDiff :=
  let s1 := l1.dedup
  let s2 := l2.dedup
  ⟨l1, l2, s1.filter (fun i => i ∈ s2), s1.filter (fun i => i ∉ s2),
    s2.filter (fun i => i ∉ s1)⟩

/-- The `NoticesTracker._old_notices` getter (trackers.py 63-68): the
snapshot record, absent meaning `[]`, each entry decoded with
`Notice.from_dict` (iterating a non-list raises `TypeError`). -/
def loadOldNotices (v : Option TrackVal) : Except PyErr (List Notice) :=
  match v with
  | none => .ok []
  | some (.vlist ds) => ds.mapM Notice.from_dict
  | some (.vint _) => .error .typeError

/-- The `NoticesTracker.get_updates` (trackers.py 95-126): diff the fresh
fetch against the decoded snapshot by id, classify into
edited/new/deleted, sort by id, advance the cursor to the last fetched
id (when the fetch is nonempty) and overwrite the snapshot with
`[asdict(n) for n in fetch]`.  Returns the result (or the propagated
exception) with the storage state after the call. -/
def getUpdates (tid gid : String) (fetch : List Notice) (st : TrackStore) :
    Except PyErr (List NoticeUpdate) × TrackStore :=
  match loadOldNotices (tsGet st (nlistKey tid gid)) with
  | .error e => (.error e, st)
  | .ok oldNotices =>
    let newDict := dictOf fetch
    let oldDict := dictOf oldNotices
    let diff := list_diff (dictKeys newDict) (dictKeys oldDict)
    let edited := (diff.common.filter
        (fun i => dLookup newDict i ≠ dLookup oldDict i)).map
      (fun i => NoticeUpdate.mk .edited (dLookup newDict i) (dLookup oldDict i))
    let createdU := diff.unique1.map
      (fun i => NoticeUpdate.mk .new (dLookup newDict i) none)
    let deletedU := diff.unique2.map
      (fun i => NoticeUpdate.mk .deleted none (dLookup oldDict i))
    let updates := sortByNid (edited ++ createdU ++ deletedU)
    let st1 := match fetch.getLast? with
      | some last => tsSet st (lnidKey tid gid) (.vint last.id)
      | none => st
    let st2 := tsSet st1 (nlistKey tid gid) (.vlist (fetch.map asdictNotice))
    (.ok updates, st2)

/-- The cursor as the `last_nid` property reads it: the stored integer,
`0` when the record is absent (trackers.py 48-57). -/
def cursorVal (st : TrackStore) (tid gid : String) : Int :=
  match tsGet st (lnidKey tid gid) with
  | some (.vint n) => n
  | _ => 0

/-! ## Event router (`pygzctfapi/misc/routers.py`, `misc/events.py`)

`BaseRouter` keeps `self._handlers`, a dict from event identifier to
the list of handlers in registration order (`add_handler` appends).
Handlers are modelled by numeric identifiers; `trigger_event` is
modelled by the ordered trace of `(handler, payload)` invocations it
performs synchronously on the calling thread. -/

/-- The `NoticeTrackerEvents` identifiers (events.py 27-47). -/
def noticeEvents : List String :=
  ["notice.new", "notice.edited", "notice.deleted", "notice.any"]

/-- A `NoticeTrackerRouter`: the `_handlers` dict, insertion-ordered,
one entry per registered event identifier. -/
structure BaseRouter where
  handlers : List (String × List Nat)
deriving DecidableEq

/-- Dict lookup on `self._handlers`. -/
def hLookup (hs : List (String × List Nat)) (e : String) : Option (List Nat) :=
  match hs.find? (fun p => p.1 = e) with
  | some p => some p.2
  | none => none

/-- Dict update on `self._handlers` (in-place list replacement). -/
def hPut (hs : List (String × List Nat)) (e : String) (l : List Nat) :
    List (String × List Nat) :=
  match hs with
  | [] => [(e, l)]
  | (e2, l2) :: rest =>
    if e2 = e then (e2, l) :: rest else (e2, l2) :: hPut rest e l

/-- The `NoticeTrackerRouter.__init__` → `BaseRouter.__init__`:
`self._handlers = {k: list() for k in self.events}` (the dict order of
`BaseEventsClass.__iter__` is immaterial to every operation). -/
def freshNoticeRouter : BaseRouter :=
  ⟨noticeEvents.map (fun e => (e, []))⟩

/-- The router-layer exceptions (`HandlerAlreadyRegisteredError`,
`EventTypeError`). -/
inductive RouterErr where
  | handlerAlreadyRegistered : RouterErr
  | eventTypeInvalid : RouterErr
deriving DecidableEq

/-- The `BaseRouter.add_handler` (routers.py 43-51): append the handler to
the event's list when absent; raise `HandlerAlreadyRegisteredError`
when present and flagged; raise `EventTypeError` for an identifier
outside the router's namespace.  For `NoticeTrackerRouter`,
`event_type in self.events` coincides with membership in the handlers
dict. -/
def addHandler (r : BaseRouter) (eventType : String) (h : Nat)
    (raiseOnExist : Bool) : Except RouterErr BaseRouter :=
  match hLookup r.handlers eventType with
  | some l =>
    if h ∈ l then
      if raiseOnExist then .error .handlerAlreadyRegistered else .ok r
    else .ok ⟨hPut r.handlers eventType (l ++ [h])⟩
  | none => .error .eventTypeInvalid

/-- The `BaseRouter.trigger_event` (routers.py 77-86), as the ordered trace
of handler invocations (each handler is called with `event.data`).
After the event's own handlers, the `notice.any` handlers run (the
`events` namespace has an `any` member).  The `else: raise
EventTypeError` branch is commented out in the source, so an
unregistered event identifier triggers nothing and raises nothing. -/
def triggerEvent {α : Type} (r : BaseRouter) (event : String) (payload : α) :
    Except RouterErr (List (Nat × α)) :=
  match hLookup r.handlers event with
  | some hs =>
    let trace := hs.map (fun h => (h, payload))
    match hLookup r.handlers "notice.any" with
    | some ahs => .ok (trace ++ ahs.map (fun h => (h, payload)))
    | none => .ok trace
  | none => .ok []

/-! ## Dispatcher polling loop (`pygzctfapi/misc/dispatchers.py`)

`TrackerDispatcher._run` (dispatchers.py 142-159) is a loop over poll
cycles; each cycle either completes (resetting the consecutive-error
counter) or raises a `GZException` (incrementing both counters and
stopping the loop when the consecutive counter reaches
`errors_treshold`, re-raising the error).  One cycle is modelled as a
step on the dispatcher's counter state; whether the cycle's body raises
is the step's input. -/

/-- The dispatcher state the loop manipulates. -/
structure DispatcherState where
  isRunning : Bool
  errors : Nat
  consecutiveErrors : Nat
  errorsTreshold : Nat
deriving DecidableEq

/-- One iteration of the `while self._is_running` loop: no-op when the
dispatcher is stopped; on a failing cycle increment `_errors` and
`_consecutive_errors` and stop (re-raising) once the consecutive
counter reaches the threshold; on a successful cycle reset the
consecutive counter. -/
def runCycle (d : DispatcherState) (cycleFails : Bool) : DispatcherState :=
  if ¬ d.isRunning then d
  else if cycleFails then
    if d.errorsTreshold ≤ d.consecutiveErrors + 1 then
      ⟨false, d.errors + 1, d.consecutiveErrors + 1, d.errorsTreshold⟩
    else
      ⟨d.isRunning, d.errors + 1, d.consecutiveErrors + 1, d.errorsTreshold⟩
  else { d with consecutiveErrors := 0 }

/-- The loop run over a sequence of cycle outcomes. -/
def runLoop (d : DispatcherState) (outcomes : List Bool) : DispatcherState :=
  outcomes.foldl runCycle d

/-- Evaluates to `true` when no prefix of the outcome sequence accumulates
`errorsTreshold` consecutive failures, starting from `c` already-seen
consecutive failures. -/
def belowTreshold (t c : Nat) : List Bool → Bool
  | [] => true
  | b :: l =>
    if b then decide (c + 1 < t) && belowTreshold t (c + 1) l
    else belowTreshold t 0 l

/-- A dispatcher as `start()` hands it to the polling loop: running,
both counters zero (`__init__` sets `_errors = _consecutive_errors =
0`). -/
def freshDispatcher (treshold : Nat) : DispatcherState :=
  ⟨true, 0, 0, treshold⟩

/-! ## Helper lemmas about the store and the tracker -/

theorem tsGet_tsSet_self (st : TrackStore) (k : String) (v : TrackVal) :
    tsGet (tsSet st k v) k = some v := by
  induction st with
  | nil => simp [tsSet, tsGet]
  | cons p rest ih =>
    obtain ⟨k2, v2⟩ := p
    by_cases hk : k2 = k
    · subst hk
      simp [tsSet, tsGet]
    · simp only [tsSet, if_neg hk]
      simpa [tsGet, List.find?, hk] using ih

theorem tsGet_tsSet_ne (st : TrackStore) {k k2 : String} (v : TrackVal)
    (h : k2 ≠ k) : tsGet (tsSet st k v) k2 = tsGet st k2 := by
  have h2 : k ≠ k2 := Ne.symm h
  induction st with
  | nil => simp [tsSet, tsGet, List.find?, h2]
  | cons p rest ih =>
    obtain ⟨k3, v3⟩ := p
    by_cases hk : k3 = k
    · subst hk
      simp [tsSet, tsGet, List.find?, h2]
    · simp only [tsSet, if_neg hk]
      by_cases hk2 : k3 = k2
      · subst hk2
        simp [tsGet, List.find?]
      · simpa [tsGet, List.find?, hk2] using ih

theorem mem_of_getLast?_eq {α : Type} {l : List α} {a : α}
    (h : l.getLast? = some a) : a ∈ l := by
  obtain ⟨hne, rfl⟩ := List.mem_getLast?_eq_getLast (Option.mem_def.mpr h)
  exact List.getLast_mem hne

/-- Everything `filterNew` keeps passed the `notice.id > lnid` check. -/
theorem filterNew_sound {lnid : Option TrackVal} :
    ∀ {ns r : List Notice}, filterNew lnid ns = Except.ok r →
      ∀ n ∈ r, idGtLnid lnid n = .ok true := by
  intro ns
  induction ns with
  | nil =>
    intro r hr n hn
    injection hr with h
    subst h
    cases hn
  | cons m ms ih =>
    intro r hr n hn
    rw [filterNew] at hr
    cases hg : idGtLnid lnid m with
    | error e => rw [hg] at hr; exact absurd hr (by simp)
    | ok b =>
      cases b with
      | true =>
        rw [hg] at hr
        cases hrest : filterNew lnid ms with
        | error e => rw [hrest] at hr; exact absurd hr (by simp)
        | ok rs =>
          rw [hrest] at hr
          dsimp only at hr
          injection hr with h
          subst h
          rcases List.mem_cons.mp hn with rfl | hmem
          · exact hg
          · exact ih hrest n hmem
      | false =>
        rw [hg] at hr
        exact ih hr n hn

/-- The notices `get_new` returns are a subset of the filtered fetch. -/
theorem getNew_store_shape (tid gid : String) (fetch : List Notice)
    (limit : Option Int) (st : TrackStore) :
    (getNew tid gid fetch limit st).2 = st ∨
      ∃ last : Notice, idGtLnid (tsGet st (lnidKey tid gid)) last = .ok true ∧
        (getNew tid gid fetch limit st).2 =
          tsSet st (lnidKey tid gid) (.vint last.id) := by
  unfold getNew
  cases hf : filterNew (tsGet st (lnidKey tid gid)) fetch with
  | error e => exact Or.inl rfl
  | ok filtered =>
    dsimp only
    set newNotices := (match limit with
      | some l => pyTake l filtered
      | none => filtered) with hnn
    cases hl : newNotices.getLast? with
    | none => exact Or.inl rfl
    | some last =>
      refine Or.inr ⟨last, ?_, rfl⟩
      have hmem : last ∈ newNotices := mem_of_getLast?_eq hl
      have hmem2 : last ∈ filtered := by
        rw [hnn] at hmem
        cases limit with
        | none => exact hmem
        | some l =>
          dsimp only at hmem
          unfold pyTake at hmem
          split_ifs at hmem <;> exact List.take_subset _ _ hmem
      exact filterNew_sound hf last hmem2

/-! ## Concrete fixtures used by the claim theorems -/

/-- A fixed timestamp shared by the concrete scenarios. -/
def sampleDatetime : Datetime := ⟨"2024-01-01T00:00:00"⟩

/-- A notice with the given id whose content is its `values` entry. -/
def mkNotice (i : Int) (content : String) : Notice :=
  ⟨i, sampleDatetime, "Normal", [content]⟩

/-- The wire-format dict of `mkNotice i content`, as a well-formed
snapshot entry (ISO-string time). -/
def mkStoredNotice (i : Int) (content : String) : StoredNotice :=
  ⟨i, .timestr "2024-01-01T00:00:00", "Normal", [content]⟩

/-- The persisted state of the C1 scenario: snapshot `{1: "a", 2: "b",
3: "c"}` (cursor 3, as the tracker would have left it). -/
def diffScenarioStore : TrackStore :=
  [(lnidKey "1" "1", .vint 3),
   (nlistKey "1" "1", .vlist
     [mkStoredNotice 1 "a", mkStoredNotice 2 "b", mkStoredNotice 3 "c"])]

/-- The fresh fetch of the C1 scenario: ids `{2, 3, 4}` with contents
`{2: "b2", 3: "c", 4: "d"}`, in the id-ascending order the collaborator
contract (`fetch_items` ascending by id) specifies. -/
def diffScenarioFetch : List Notice :=
  [mkNotice 2 "b2", mkNotice 3 "c", mkNotice 4 "d"]

/-! ## Claim theorems -/

/-- Claim C1 — Diff correctness, literal scenario: with the persisted
snapshot holding exactly ids `{1, 2, 3}` with contents
`{1:"a", 2:"b", 3:"c"}` and the fetch returning exactly ids `{2, 3, 4}`
with contents `{2:"b2", 3:"c", 4:"d"}`, `get_updates()` returns exactly
three updates sorted ascending by id — `deleted(1, "a")`,
`edited(2, old "b", new "b2")`, `new(4, "d")` — with no update for the
unchanged id 3, and the stored cursor equals 4 after the call. -/
theorem getUpdates_diff_literal_scenario :
    (getUpdates "1" "1" diffScenarioFetch diffScenarioStore).1 =
      .ok [⟨.deleted, none, some (mkNotice 1 "a")⟩,
           ⟨.edited, some (mkNotice 2 "b2"), some (mkNotice 2 "b")⟩,
           ⟨.new, some (mkNotice 4 "d"), none⟩] ∧
    tsGet (getUpdates "1" "1" diffScenarioFetch diffScenarioStore).2
        (lnidKey "1" "1") = some (.vint 4) := by
  constructor
  · decide
  · decide

/-- Claim C8 — `get_new(limit=2)` with stored cursor 4 on a fetch
returning ids `[5, 6, 7]` returns exactly the notices with ids
`[5, 6]` (ascending, truncated) and advances the cursor to 6, the id of
the last returned notice — not to 7, the maximum id fetched. -/
theorem getNew_limit_advances_cursor_to_last_returned :
    (getNew "1" "1" [mkNotice 5 "e", mkNotice 6 "f", mkNotice 7 "g"] (some 2)
        [(lnidKey "1" "1", .vint 4)]).1 = .ok [mkNotice 5 "e", mkNotice 6 "f"] ∧
    tsGet (getNew "1" "1" [mkNotice 5 "e", mkNotice 6 "f", mkNotice 7 "g"] (some 2)
        [(lnidKey "1" "1", .vint 4)]).2 (lnidKey "1" "1") = some (.vint 6) := by
  constructor
  · decide
  · decide

/-- Claim C9 — Frame property of `get_new`: for every tracker state and
fetch result (and any limit), `get_new` leaves every storage record
other than the cursor record (`...-LNID`) unchanged — in particular the
persisted snapshot (`...-NLIST`) record. -/
theorem getNew_frame (tid gid : String) (fetch : List Notice)
    (limit : Option Int) (st : TrackStore) (k : String)
    (hk : k ≠ lnidKey tid gid) :
    tsGet (getNew tid gid fetch limit st).2 k = tsGet st k := by
  rcases getNew_store_shape tid gid fetch limit st with heq | ⟨last, _, heq⟩
  · rw [heq]
  · rw [heq, tsGet_tsSet_ne st _ hk]

/-- Witness for `getNew_frame`: the concrete C8 scenario leaves the
snapshot record untouched. -/
theorem getNew_frame_witness :
    tsGet (getNew "1" "1" [mkNotice 5 "e"] none
        [(nlistKey "1" "1", .vlist [])]).2 (nlistKey "1" "1") =
      tsGet [(nlistKey "1" "1", .vlist [])] (nlistKey "1" "1") :=
  getNew_frame "1" "1" [mkNotice 5 "e"] none
    [(nlistKey "1" "1", .vlist [])] (nlistKey "1" "1") (by decide)

/-- Claim C2, counterexample — The cursor can decrease: from a reachable
state with stored cursor 5 and no snapshot (as `get_new` leaves it), a
`get_updates` call whose fetch returns only the notice with id 1
succeeds and rewrites the cursor to 1 < 5. -/
theorem getUpdates_cursor_can_decrease :
    cursorVal [(lnidKey "1" "1", .vint 5)] "1" "1" = 5 ∧
    (getUpdates "1" "1" [mkNotice 1 "x"] [(lnidKey "1" "1", .vint 5)]).1 =
      .ok [⟨.new, some (mkNotice 1 "x"), none⟩] ∧
    cursorVal (getUpdates "1" "1" [mkNotice 1 "x"]
        [(lnidKey "1" "1", .vint 5)]).2 "1" "1" = 1 := by
  refine ⟨by decide, by decide, by decide⟩

/-- Claim C2, amended — `get_new` never decreases the stored cursor (its
new value, when written, is the id of a notice that passed the
`id > cursor` filter); `get_updates`, however, unconditionally rewrites
the cursor to the id of the *last fetched* notice whenever the fetch is
nonempty (keeping it on an empty fetch or on an error), so it can
decrease the cursor. -/
theorem cursor_monotonicity_amended :
    (∀ tid gid fetch limit st,
      cursorVal st tid gid ≤ cursorVal (getNew tid gid fetch limit st).2 tid gid) ∧
    (∀ tid gid fetch st,
      tsGet (getUpdates tid gid fetch st).2 (lnidKey tid gid) =
        (match (getUpdates tid gid fetch st).1, fetch.getLast? with
         | .ok _, some last => some (.vint last.id)
         | .ok _, none => tsGet st (lnidKey tid gid)
         | .error _, _ => tsGet st (lnidKey tid gid))) := by
  constructor
  · intro tid gid fetch limit st
    rcases getNew_store_shape tid gid fetch limit st with heq | ⟨last, hgt, heq⟩
    · rw [heq]
    · rw [heq]
      unfold cursorVal
      rw [tsGet_tsSet_self]
      unfold idGtLnid at hgt
      cases hv : tsGet st (lnidKey tid gid) with
      | none =>
        rw [hv] at hgt
        injection hgt with h
        have := of_decide_eq_true h
        dsimp only
        omega
      | some tv =>
        cases tv with
        | vint m =>
          rw [hv] at hgt
          injection hgt with h
          have := of_decide_eq_true h
          dsimp only
          omega
        | vlist l =>
          rw [hv] at hgt
          exact absurd hgt (by simp)
  · intro tid gid fetch st
    unfold getUpdates
    cases hold : loadOldNotices (tsGet st (nlistKey tid gid)) with
    | error e => rfl
    | ok oldNotices =>
      dsimp only
      have hne : lnidKey tid gid ≠ nlistKey tid gid := lnidKey_ne_nlistKey tid gid
      cases hl : fetch.getLast? with
      | some last =>
        rw [tsGet_tsSet_ne _ _ hne, tsGet_tsSet_self]
      | none =>
        rw [tsGet_tsSet_ne _ _ hne]

/-- Witness for `cursor_monotonicity_amended`: both parts evaluated on
the C8-style concrete state. -/
theorem cursor_monotonicity_amended_witness :
    cursorVal [(lnidKey "1" "1", .vint 4)] "1" "1" ≤
      cursorVal (getNew "1" "1" [mkNotice 5 "e"] none
        [(lnidKey "1" "1", .vint 4)]).2 "1" "1" ∧
    tsGet (getUpdates "1" "1" [mkNotice 1 "x"]
        [(lnidKey "1" "1", .vint 5)]).2 (lnidKey "1" "1") =
      (match (getUpdates "1" "1" [mkNotice 1 "x"]
          [(lnidKey "1" "1", .vint 5)]).1, [mkNotice 1 "x"].getLast? with
       | .ok _, some last => some (.vint last.id)
       | .ok _, none => tsGet [(lnidKey "1" "1", .vint 5)] (lnidKey "1" "1")
       | .error _, _ => tsGet [(lnidKey "1" "1", .vint 5)] (lnidKey "1" "1")) :=
  ⟨cursor_monotonicity_amended.1 "1" "1" [mkNotice 5 "e"] none
      [(lnidKey "1" "1", .vint 4)],
    cursor_monotonicity_amended.2 "1" "1" [mkNotice 1 "x"]
      [(lnidKey "1" "1", .vint 5)]⟩

/-- Claim C4, code bug — With the default in-memory storage, a first
`get_updates` on a nonempty fetch succeeds and stores the snapshot via
`asdict`, leaving each `time` entry a `datetime` object; the second
call — same fetch, no external change — then raises `AttributeError`
inside `Notice.from_dict` (`data['time'].rstrip('Z')` on a `datetime`)
instead of returning the empty batch. -/
theorem getUpdates_second_call_raises :
    (getUpdates "1" "1" [mkNotice 1 "x"] []).1 =
      .ok [⟨.new, some (mkNotice 1 "x"), none⟩] ∧
    (getUpdates "1" "1" [mkNotice 1 "x"]
        (getUpdates "1" "1" [mkNotice 1 "x"] []).2).1 =
      .error .attributeError := by
  refine ⟨by decide, by decide⟩

/-- Claim C3, counterexample — Round-trip fails outside msgpack's range
on a byte backend: `set` of the integer `2^64` (a value of the declared
`Union[..., int, ...]` type set) raises `ValueError` from
`prepare_data`, so set-then-get cannot return the value. -/
theorem storage_roundtrip_large_int_fails :
    sqliteSetThenGet [] "key" (.int (2 ^ 64)) = .error .valueError ∧
    (Except.error .valueError : Except PyErr (Option MPVal)) ≠
      .ok (some (.int (2 ^ 64))) := by
  constructor
  · rfl
  · simp

/-- Claim C3, amended — Round-trip holds for every serializable value:
on a byte backend (`SQLiteStorage` shown), whenever `msgpack.packb`
accepts the value — integers within `[-2^63, 2^64)`, str/bin payloads
and collections below the 2^32 length limits, arbitrarily nested —
`set(k, v)` then `get(k)` returns a value equal to `v`, with floats
round-tripped bit-exactly (never coerced to int: the decoded value is
`v` itself, constructor included); on the in-memory backend (plain dict
plus `deepcopy`) every value round-trips while the storage is open.
Values `packb` rejects (such as the integer `2^64`) raise instead. -/
theorem storage_set_get_roundtrip :
    (∀ (st : BStore) (k : String) (v : MPVal), (packb v).isSome = true →
      sqliteSetThenGet st k v = .ok (some v)) ∧
    (∀ (st : InMemoryStorage) (k : String) (v : MPVal), st.isClosed = false →
      memSetThenGet st k v = .ok (some v)) := by
  constructor
  · intro st k v hv
    obtain ⟨bs, hbs⟩ := Option.isSome_iff_exists.mp hv
    unfold sqliteSetThenGet sqliteSet byteSet prepare_data
    rw [hbs]
    dsimp only
    unfold sqliteGet byteGet
    rw [bstoreLookup_bstorePut_self]
    dsimp only
    rw [unpackb_packb hbs]
  · intro st k v hop
    unfold memSetThenGet InMemoryStorage.set InMemoryStorage.get
    rw [hop]
    simp [memLookup_memPut_self]

/-- Witness for `storage_set_get_roundtrip`: a nested value with a
negative int, a 64-bit boundary int, a float, raw bytes and an empty
map round-trips on both backends. -/
theorem storage_set_get_roundtrip_witness :
    sqliteSetThenGet [] "key"
      (.map [(.str [107], .arr [.int (-5), .int (2 ^ 63), .float 3,
        .bool true, .nil, .bin [0, 255], .map []])]) =
      .ok (some (.map [(.str [107], .arr [.int (-5), .int (2 ^ 63), .float 3,
        .bool true, .nil, .bin [0, 255], .map []])])) ∧
    memSetThenGet ⟨[], false⟩ "key" (.float 1) = .ok (some (.float 1)) :=
  ⟨storage_set_get_roundtrip.1 [] "key"
      (.map [(.str [107], .arr [.int (-5), .int (2 ^ 63), .float 3,
        .bool true, .nil, .bin [0, 255], .map []])]) (by rfl),
    storage_set_get_roundtrip.2 ⟨[], false⟩ "key" (.float 1) (by rfl)⟩

/-- Claim C5, counterexample — A serialization failure inside
`ByteStorage.set` reaches the caller as a plain `ValueError`, not as
the wrapped `StorageOperationError`: `prepare_data` is called before
the `try` block (storages.py 93-98). -/
theorem storage_set_serialize_error_unwrapped :
    sqliteSet [] "key2" (.int (2 ^ 64)) = .error .valueError ∧
    PyErr.isStorageOp .valueError = false := by
  constructor
  · rfl
  · rfl

/-- Claim C5, amended — Failures of the backend primitives inside the
`try` blocks of `get`/`set`/`unset`/`exists` are wrapped as
`StorageOperationError` carrying the underlying cause (including a
deserialization failure inside `get`); but a serialization failure
inside `set` is raised as a plain unwrapped `ValueError`, because
`prepare_data` runs before the `try` block. -/
theorem storage_errors_wrapped_except_serialize :
    (∀ e : PyErr, byteGet (.error e) = .error (.storageOperationError e)) ∧
    (∀ bs : List Nat, unpackb bs = none →
      byteGet (.ok (some bs)) = .error (.storageOperationError .unpackError)) ∧
    (∀ e : PyErr, byteUnset (σ := Unit) (.error e) =
      .error (.storageOperationError e)) ∧
    (∀ e : PyErr, byteExists (.error e) = .error (.storageOperationError e)) ∧
    (∀ (v : MPVal) (bs : List Nat) (e : PyErr)
        (prim : List Nat → Except PyErr Unit),
      packb v = some bs → prim bs = .error e →
        byteSet v prim = .error (.storageOperationError e)) ∧
    (∀ (v : MPVal) (prim : List Nat → Except PyErr Unit),
      packb v = none → byteSet v prim = .error .valueError) := by
  refine ⟨fun e => rfl, ?_, fun e => rfl, fun e => rfl, ?_, ?_⟩
  · intro bs hbs
    unfold byteGet
    dsimp only
    rw [hbs]
  · intro v bs e prim hv hprim
    unfold byteSet prepare_data
    rw [hv]
    dsimp only
    rw [hprim]
  · intro v prim hv
    unfold byteSet prepare_data
    rw [hv]

/-- Witness for `storage_errors_wrapped_except_serialize`: each part at
a concrete input (reserved tag `0xc1` for the malformed bytes, a
failing primitive, and the unpackable integer `2^64`). -/
theorem storage_errors_wrapped_witness :
    byteGet (.error .typeError) = .error (.storageOperationError .typeError) ∧
    byteGet (.ok (some [0xc1])) = .error (.storageOperationError .unpackError) ∧
    byteUnset (σ := Unit) (.error .typeError) =
      .error (.storageOperationError .typeError) ∧
    byteExists (.error .typeError) = .error (.storageOperationError .typeError) ∧
    byteSet (.int 5) (fun _ => (.error .typeError : Except PyErr Unit)) =
      .error (.storageOperationError .typeError) ∧
    byteSet (.int (2 ^ 64)) (fun _ => (.ok () : Except PyErr Unit)) =
      .error .valueError :=
  ⟨storage_errors_wrapped_except_serialize.1 .typeError,
    storage_errors_wrapped_except_serialize.2.1 [0xc1] (by
      rw [unpackb, parseVal]
      norm_num [parseHead]),
    storage_errors_wrapped_except_serialize.2.2.1 .typeError,
    storage_errors_wrapped_except_serialize.2.2.2.1 .typeError,
    storage_errors_wrapped_except_serialize.2.2.2.2.1 (.int 5) [5] .typeError _
      (by rfl) (by rfl),
    storage_errors_wrapped_except_serialize.2.2.2.2.2 (.int (2 ^ 64)) _ (by rfl)⟩

/-- A concrete router used by the router witnesses: handler 7
registered for `notice.new`, handler 9 registered for `notice.any`. -/
def sampleRouter : BaseRouter :=
  ⟨[("notice.new", [7]), ("notice.edited", []), ("notice.deleted", []),
    ("notice.any", [9])]⟩

/-- Claim C6, counterexample — Triggering an event identifier no
namespace of the router registers does *not* raise: the
`raise EventTypeError` branch of `trigger_event` is commented out
(routers.py 85-86), so the call returns normally having invoked no
handler. -/
theorem triggerEvent_unregistered_is_noop :
    triggerEvent sampleRouter "bogus" (0 : Nat) = .ok [] := by
  decide

/-- Claim C6, amended — `trigger_event` on a registered event invokes
every handler in that event's list synchronously in registration order
(then the `notice.any` handlers); on an event identifier not registered
by any of the router's namespaces it is a silent no-op — no handler
runs and no error is raised. -/
theorem triggerEvent_behavior :
    (∀ (α : Type) (r : BaseRouter) (e : String) (p : α) (hs : List Nat),
      hLookup r.handlers e = some hs →
        triggerEvent r e p = .ok (hs.map (fun h => (h, p)) ++
          (match hLookup r.handlers "notice.any" with
           | some ahs => ahs.map (fun h => (h, p))
           | none => []))) ∧
    (∀ (α : Type) (r : BaseRouter) (e : String) (p : α),
      hLookup r.handlers e = none → triggerEvent r e p = .ok []) := by
  constructor
  · intro α r e p hs he
    unfold triggerEvent
    rw [he]
    dsimp only
    cases ha : hLookup r.handlers "notice.any" with
    | some ahs => rfl
    | none => simp
  · intro α r e p he
    unfold triggerEvent
    rw [he]

/-- Witness for `triggerEvent_behavior`: both parts on the concrete
router. -/
theorem triggerEvent_behavior_witness :
    triggerEvent sampleRouter "notice.new" (42 : Nat) =
      .ok ([7].map (fun h => (h, 42)) ++
        (match hLookup sampleRouter.handlers "notice.any" with
         | some ahs => ahs.map (fun h => (h, 42))
         | none => [])) ∧
    triggerEvent sampleRouter "bogus2" (42 : Nat) = .ok [] :=
  ⟨triggerEvent_behavior.1 Nat sampleRouter "notice.new" 42 [7] (by decide),
    triggerEvent_behavior.2 Nat sampleRouter "bogus2" 42 (by decide)⟩

/-- Claim C10 — For every registered event identifier `e` other than
`notice.any`, `trigger_event(e, payload)` invokes, after all of `e`'s
own handlers, every handler registered under `notice.any`, in
registration order, with the same payload — so an `any` handler
receives the payload of every triggered event kind. -/
theorem triggerEvent_runs_any_handlers (α : Type) (r : BaseRouter)
    (e : String) (p : α) (hs ahs : List Nat)
    (hne : e ≠ "notice.any")
    (he : hLookup r.handlers e = some hs)
    (ha : hLookup r.handlers "notice.any" = some ahs) :
    triggerEvent r e p =
      .ok (hs.map (fun h => (h, p)) ++ ahs.map (fun h => (h, p))) := by
  unfold triggerEvent
  rw [he]
  dsimp only
  rw [ha]

/-- Witness for `triggerEvent_runs_any_handlers`: on the concrete
router, triggering `notice.new` runs handler 7 and then the `any`
handler 9 with the same payload. -/
theorem triggerEvent_runs_any_handlers_witness :
    triggerEvent sampleRouter "notice.new" (42 : Nat) =
      .ok ([7].map (fun h => (h, 42)) ++ [9].map (fun h => (h, 42))) :=
  triggerEvent_runs_any_handlers Nat sampleRouter "notice.new" 42 [7] [9]
    (by decide) (by decide) (by decide)

/-! ## Dispatcher lemmas and the C7 claim -/

theorem runCycle_stopped {d : DispatcherState} (b : Bool)
    (h : d.isRunning = false) : runCycle d b = d := by
  unfold runCycle
  rw [h]
  simp

theorem runCycle_run_true (d : DispatcherState) (h : d.isRunning = true) :
    runCycle d true =
      if d.errorsTreshold ≤ d.consecutiveErrors + 1 then
        ⟨false, d.errors + 1, d.consecutiveErrors + 1, d.errorsTreshold⟩
      else ⟨true, d.errors + 1, d.consecutiveErrors + 1, d.errorsTreshold⟩ := by
  unfold runCycle
  rw [h]
  simp

theorem runCycle_run_false (d : DispatcherState) (h : d.isRunning = true) :
    runCycle d false = { d with consecutiveErrors := 0 } := by
  unfold runCycle
  rw [h]
  simp

theorem runLoop_stopped {d : DispatcherState} (l : List Bool)
    (h : d.isRunning = false) : runLoop d l = d := by
  induction l with
  | nil => rfl
  | cons b l ih =>
    show runLoop (runCycle d b) l = d
    rw [runCycle_stopped b h, ih]

/-- While the counter stays below the threshold along the whole
outcome sequence, the loop keeps running. -/
theorem runLoop_running_of_belowTreshold :
    ∀ (l : List Bool) (d : DispatcherState),
      d.isRunning = true →
      belowTreshold d.errorsTreshold d.consecutiveErrors l = true →
      (runLoop d l).isRunning = true := by
  intro l
  induction l with
  | nil =>
    intro d hrun _
    exact hrun
  | cons b l ih =>
    intro d hrun hsafe
    rw [belowTreshold] at hsafe
    show (runLoop (runCycle d b) l).isRunning = true
    cases b with
    | true =>
      rw [if_pos rfl, Bool.and_eq_true, decide_eq_true_iff] at hsafe
      obtain ⟨hlt, hrest⟩ := hsafe
      rw [runCycle_run_true d hrun, if_neg (by omega)]
      exact ih _ rfl hrest
    | false =>
      rw [if_neg (by simp)] at hsafe
      rw [runCycle_run_false d hrun]
      exact ih _ hrun hsafe

/-- Reachability invariant: starting below the threshold, a loop state
that is still running has its consecutive counter below the
threshold. -/
theorem runLoop_consecutive_lt :
    ∀ (l : List Bool) (d : DispatcherState),
      d.isRunning = true →
      d.consecutiveErrors < d.errorsTreshold →
      (runLoop d l).isRunning = true →
      (runLoop d l).consecutiveErrors < (runLoop d l).errorsTreshold := by
  intro l
  induction l with
  | nil =>
    intro d _ hlt _
    exact hlt
  | cons b l ih =>
    intro d hrun hlt hfinal
    rw [show runLoop d (b :: l) = runLoop (runCycle d b) l from rfl] at hfinal ⊢
    cases b with
    | true =>
      by_cases hth : d.errorsTreshold ≤ d.consecutiveErrors + 1
      · rw [runCycle_run_true d hrun, if_pos hth] at hfinal
        rw [runLoop_stopped l rfl] at hfinal
        exact absurd hfinal (by simp)
      · rw [runCycle_run_true d hrun, if_neg hth] at hfinal ⊢
        exact ih _ rfl (by dsimp only; omega) hfinal
    | false =>
      rw [runCycle_run_false d hrun] at hfinal ⊢
      exact ih _ hrun (by dsimp only; omega) hfinal

/-- Claim C7 — The dispatcher polling loop as a step relation on
`(running, cumulative errors, consecutive errors)`: a failing cycle
increments both counters; a successful cycle resets the consecutive
counter; once a failing cycle brings the consecutive counter to
`errors_treshold` the loop stops, and from any start below the
threshold a running state always has its counter below the threshold.
With `errors_treshold = 3`, three consecutive failing cycles halt the
dispatcher, while any outcome sequence that never accumulates three
consecutive failures (e.g. a success between two failures) keeps it
running. -/
theorem dispatcher_error_treshold_behavior :
    (∀ d : DispatcherState, d.isRunning = true →
      (runCycle d true).errors = d.errors + 1 ∧
      (runCycle d true).consecutiveErrors = d.consecutiveErrors + 1) ∧
    (∀ d : DispatcherState, d.isRunning = true →
      (runCycle d false).consecutiveErrors = 0) ∧
    (∀ d : DispatcherState, d.isRunning = true →
      d.errorsTreshold ≤ d.consecutiveErrors + 1 →
      (runCycle d true).isRunning = false) ∧
    (∀ (l : List Bool) (d : DispatcherState), d.isRunning = true →
      d.consecutiveErrors < d.errorsTreshold →
      (runLoop d l).isRunning = true →
      (runLoop d l).consecutiveErrors < (runLoop d l).errorsTreshold) ∧
    (runLoop (freshDispatcher 3) [true, true, true]).isRunning = false ∧
    (∀ l : List Bool, belowTreshold 3 0 l = true →
      (runLoop (freshDispatcher 3) l).isRunning = true) := by
  refine ⟨?_, ?_, ?_, runLoop_consecutive_lt, by decide, ?_⟩
  · intro d hrun
    rw [runCycle_run_true d hrun]
    split_ifs <;> exact ⟨rfl, rfl⟩
  · intro d hrun
    rw [runCycle_run_false d hrun]
  · intro d hrun hth
    rw [runCycle_run_true d hrun, if_pos hth]
  · intro l hsafe
    exact runLoop_running_of_belowTreshold l (freshDispatcher 3) rfl hsafe

/-- Witness for `dispatcher_error_treshold_behavior`: each conditional
part at a concrete state — including the success-between-failures
sequence `[fail, ok, fail, fail, ok, fail]`, which keeps a
threshold-3 dispatcher running. -/
theorem dispatcher_error_treshold_witness :
    ((runCycle (freshDispatcher 3) true).errors = 0 + 1 ∧
      (runCycle (freshDispatcher 3) true).consecutiveErrors = 0 + 1) ∧
    (runCycle (freshDispatcher 3) false).consecutiveErrors = 0 ∧
    (runCycle ⟨true, 2, 2, 3⟩ true).isRunning = false ∧
    ((runLoop (freshDispatcher 3) [true, false, true]).isRunning = true →
      (runLoop (freshDispatcher 3) [true, false, true]).consecutiveErrors <
        (runLoop (freshDispatcher 3) [true, false, true]).errorsTreshold) ∧
    (runLoop (freshDispatcher 3) [true, true, true]).isRunning = false ∧
    (runLoop (freshDispatcher 3) [true, false, true, true, false, true]).isRunning
      = true :=
  ⟨dispatcher_error_treshold_behavior.1 (freshDispatcher 3) rfl,
    dispatcher_error_treshold_behavior.2.1 (freshDispatcher 3) rfl,
    dispatcher_error_treshold_behavior.2.2.1 ⟨true, 2, 2, 3⟩ rfl (by decide),
    dispatcher_error_treshold_behavior.2.2.2.1 [true, false, true]
      (freshDispatcher 3) rfl (by decide),
    dispatcher_error_treshold_behavior.2.2.2.2.1,
    dispatcher_error_treshold_behavior.2.2.2.2.2
      [true, false, true, true, false, true] (by decide)⟩

end Pygzctfapi
